import Mathlib

/-!
Verification development for the `minidsp-rs` Home Assistant integration
(`custom_components/minidsp-rs/api.py` and `coordinator.py`).

The development shallowly embeds:

* the JSON value universe the integration manipulates (`JVal`), together
  with Python's `==` relation on those values (`pyEq`), including the
  facts that `True == 1`, `7 == 7.0`, and that `dict` equality ignores
  key order;
* `coordinator.py`: `_rounded_levels` (full-refresh normalization, here
  `rounded_levels`) and `_levels_callback` (the incremental merge of a
  stream event, here `levels_callback`);
* `api.py`: the websocket listener lifecycle (`_ws_listener_task`,
  `async_subscribe_levels`, unsubscribe, `async_disconnect`) as a
  small-step state machine `loopStep` over a `Client` record, and the
  fan-out `_dispatch_event` with its per-listener exception handler.

Python floats are modelled as exact rationals; every float appearing in
the spec's scenarios (`7.5`, `7.49`, `-20.3`, `-10.2`, `-5.9`) is exactly
representable as far as the rounding results are concerned, i.e. the
binary double rounds to the same integer as the decimal rational does.
-/

/-- A decoded JSON value as manipulated by the Python code.  Python's
`bool` is a distinct constructor from `int` because the code's
`isinstance(v, (int, float))` test treats booleans as numbers while the
value keeps its own type until it is rounded. -/
inductive JVal where
  | null
  | bool (b : Bool)
  | int (n : Int)
  | float (q : Rat)
  | str (s : String)
  | list (xs : List JVal)
  | dict (es : List (String × JVal))

/-- The numeric content of a Python value, when `isinstance(v, (int, float))`
holds (booleans included, since `bool` subclasses `int`). -/
def toQ : JVal → Option Rat
  | .bool b => some (if b then 1 else 0)
  | .int n => some n
  | .float q => some q
  | _ => none

/-- `isinstance(v, (int, float))` — true for booleans as well. -/
def isNumeric : JVal → Bool
  | .bool _ => true
  | .int _ => true
  | .float _ => true
  | _ => false

/-- Python truthiness (`bool(v)`), driving the `or` in
`event.get("master_status") or event.get("master")`. -/
def truthy : JVal → Bool
  | .null => false
  | .bool b => b
  | .int n => n != 0
  | .float q => q != 0
  | .str s => s != ""
  | .list xs => !xs.isEmpty
  | .dict es => !es.isEmpty

/-- `d.get(k)` / `k in d` on an insertion-ordered dict. -/
def pyLookup (k : String) : List (String × JVal) → Option JVal
  | [] => none
  | (k', v) :: rest => if k' = k then some v else pyLookup k rest

/-- Remove the first entry with key `k` (helper for the order-insensitive
dict equality below). -/
def removeKey (k : String) : List (String × JVal) → List (String × JVal)
  | [] => []
  | (k', v) :: rest => if k' = k then rest else (k', v) :: removeKey k rest

/-- `d[k] = v` on an insertion-ordered dict: replace in place when the key
exists, append otherwise (CPython dict semantics). -/
def setKey (k : String) (v : JVal) : List (String × JVal) → List (String × JVal)
  | [] => [(k, v)]
  | (k', v') :: rest => if k' = k then (k, v) :: rest else (k', v') :: setKey k v rest

mutual

/-- Python `==` on decoded JSON values: numbers (bool/int/float) compare by
numeric value, strings by content, lists elementwise, dicts by key set and
per-key values (insertion order is ignored); mixed categories are unequal. -/
def pyEq : JVal → JVal → Bool
  | .null, .null => true
  | .str s, .str t => s == t
  | .list xs, .list ys => pyEqList xs ys
  | .dict xs, .dict ys => pyEqDict xs ys
  | a, b =>
    match toQ a, toQ b with
    | some x, some y => x == y
    | _, _ => false

/-- Python `==` on lists: same length, elementwise equal. -/
def pyEqList : List JVal → List JVal → Bool
  | [], [] => true
  | x :: xs, y :: ys => pyEq x y && pyEqList xs ys
  | _, _ => false

/-- Python `==` on dicts (entries carry no duplicate keys in values built
by the code): every key of the left side is present on the right with an
equal value, and no entries remain unmatched. -/
def pyEqDict : List (String × JVal) → List (String × JVal) → Bool
  | [], ys => ys.isEmpty
  | (k, v) :: xs, ys =>
    match pyLookup k ys with
    | some w => pyEq v w && pyEqDict xs (removeKey k ys)
    | none => false

end

mutual

/-- Structural (Lean-level) equality test on `JVal`, used only to obtain a
`DecidableEq JVal` instance; it is finer than `pyEq` (it distinguishes
`int 1` from `bool true` and from `float 1`). -/
def jeq : JVal → JVal → Bool
  | .null, .null => true
  | .bool x, .bool y => x == y
  | .int x, .int y => x == y
  | .float x, .float y => x == y
  | .str x, .str y => x == y
  | .list xs, .list ys => jeqList xs ys
  | .dict xs, .dict ys => jeqDict xs ys
  | _, _ => false

/-- Elementwise structural equality on lists of values. -/
def jeqList : List JVal → List JVal → Bool
  | [], [] => true
  | x :: xs, y :: ys => jeq x y && jeqList xs ys
  | _, _ => false

/-- Entrywise structural equality on dict entry lists (order-sensitive). -/
def jeqDict : List (String × JVal) → List (String × JVal) → Bool
  | [], [] => true
  | (k, v) :: xs, (k', v') :: ys => k == k' && jeq v v' && jeqDict xs ys
  | _, _ => false

end

mutual

theorem jeq_iff : (a b : JVal) → (jeq a b = true ↔ a = b)
  | .null, b => by cases b <;> simp [jeq]
  | .bool x, b => by cases b <;> simp [jeq]
  | .int x, b => by cases b <;> simp [jeq]
  | .float x, b => by cases b <;> simp [jeq]
  | .str x, b => by cases b <;> simp [jeq]
  | .list xs, b => by
    cases b <;> simp [jeq]
    case list ys => rw [jeqList_iff xs ys]
  | .dict es, b => by
    cases b <;> simp [jeq]
    case dict fs => rw [jeqDict_iff es fs]

theorem jeqList_iff : (xs ys : List JVal) → (jeqList xs ys = true ↔ xs = ys)
  | [], [] => by simp [jeqList]
  | [], _ :: _ => by simp [jeqList]
  | _ :: _, [] => by simp [jeqList]
  | x :: xs, y :: ys => by
    simp [jeqList, jeq_iff x y, jeqList_iff xs ys]

theorem jeqDict_iff : (xs ys : List (String × JVal)) → (jeqDict xs ys = true ↔ xs = ys)
  | [], [] => by simp [jeqDict]
  | [], _ :: _ => by simp [jeqDict]
  | _ :: _, [] => by simp [jeqDict]
  | (k, v) :: xs, (k', v') :: ys => by
    simp [jeqDict, jeq_iff v v', jeqDict_iff xs ys, and_assoc]

end

instance : DecidableEq JVal := fun a b => decidable_of_iff _ (jeq_iff a b)

/-- Python `round` on an exact rational: round to the nearest integer,
ties to the even integer (CPython float rounding).  With `f = ⌊q⌋`, the
fractional part `q - f` is below, above or exactly `1/2` according as
`2*q.num` is below, above or equal to `(2*f+1)*q.den` (the denominator is
positive), so the comparisons are carried out on integers. -/
def roundHalfEven (q : Rat) : Int :=
  let f := q.floor
  if 2 * q.num < (2 * f + 1) * (q.den : Int) then f
  else if (2 * f + 1) * (q.den : Int) < 2 * q.num then f + 1
  else if f % 2 = 0 then f else f + 1

/-- `int(round(v))` for a value passing the `isinstance(v, (int, float))`
test: booleans map to 0/1, ints are unchanged, floats round half-to-even. -/
def toIntVal : JVal → Int
  | .bool b => if b then 1 else 0
  | .int n => n
  | .float q => roundHalfEven q
  | _ => 0

/-- The rounding rule used throughout `coordinator.py`:
`int(round(v)) if isinstance(v, (int, float)) else v`. -/
def roundVal (v : JVal) : JVal :=
  if isNumeric v then .int (toIntVal v) else v

/-- The coordinator's `self.data` dictionary (insertion-ordered). -/
abbrev StateDict := List (String × JVal)

/-- `_rounded_levels` from `coordinator.py`: normalize a full HTTP
snapshot by rounding every numeric value at the top level, inside
top-level sequences, and inside top-level (one-level) nested mappings;
anything nested deeper is left as-is. -/
def rounded_levels (data : StateDict) : StateDict :=
  data.map fun kv =>
    match kv.2 with
    | .list xs => (kv.1, .list (xs.map roundVal))
    | .dict es => (kv.1, .dict (es.map fun kv2 => (kv2.1, roundVal kv2.2)))
    | v => (kv.1, roundVal v)

/-- The transformation `_rounded_levels` applies to one top-level value:
round the elements of a sequence, the values of a mapping, or the value
itself. -/
def roundEntryVal : JVal → JVal
  | .list xs => .list (xs.map roundVal)
  | .dict es => .dict (es.map fun kv => (kv.1, roundVal kv.2))
  | v => roundVal v

/-- The value of a `"levels"` key when it is a mapping: the two level keys
the code reads from it (`event["levels"]["input_levels"]` etc. are
iterated, so they are sequences when present; other keys of the mapping
are never read). -/
structure LevelsDict where
  input_levels : Option (List JVal) := none
  output_levels : Option (List JVal) := none

/-- A decoded stream event, keyed by the top-level fields
`_levels_callback` reads.  `input_levels`/`output_levels` are iterated by
the code, hence sequences when present; `outputs` is only acted on when
`isinstance(event["outputs"], list)` holds and `levels` only when
`isinstance(event["levels"], dict)` holds, so a present-but-ill-typed
value behaves exactly like an absent one and is modelled as `none`.
Unrecognized keys are never read by the code and are omitted. -/
structure Event where
  input_levels : Option (List JVal) := none
  output_levels : Option (List JVal) := none
  master_status : Option JVal := none
  master : Option JVal := none
  outputs : Option (List JVal) := none
  levels : Option LevelsDict := none

/-- The per-key body of the two loops in `_levels_callback`:
`new_list = [int(round(v)) if isinstance(v,(int,float)) else v for v in ...]`,
then `if new_list != current.get(key): current[key] = new_list; updated = True`.
Comparing against a missing key compares against `None`, which a list is
never equal to. -/
def mergeLevelList (key : String) (vals : Option (List JVal)) :
    StateDict × Bool → StateDict × Bool
  | (cur, upd) =>
    match vals with
    | none => (cur, upd)
    | some vs =>
      let newList : JVal := .list (vs.map roundVal)
      match pyLookup key cur with
      | some c => if pyEq newList c then (cur, upd) else (setKey key newList cur, true)
      | none => (setKey key newList cur, true)

/-- The merge loop over `incoming_master.items()`: each numeric value is
rounded, then written into a copy of the current `master` mapping. -/
def mergeMasterDict (cur inc : List (String × JVal)) : List (String × JVal) :=
  inc.foldl (fun acc kv => setKey kv.1 (roundVal kv.2) acc) cur

/-- The `master_status`/`master` block of `_levels_callback`:
`incoming_master = event.get("master_status") or event.get("master")`
(Python `or`, i.e. falls through on a falsy first operand); if the result
is a mapping, a missing or non-mapping `current["master"]` is first
replaced by `{}` (without touching the updated flag), the incoming items
are merged with rounding, and the result is stored and counted as an
update only if it differs from the prior mapping. -/
def masterRule (e : Event) : StateDict × Bool → StateDict × Bool
  | (cur, upd) =>
    if e.master_status.isSome || e.master.isSome then
      let incoming : Option JVal :=
        match e.master_status with
        | some v => if truthy v then some v else e.master
        | none => e.master
      match incoming with
      | some (.dict inc) =>
        match pyLookup "master" cur with
        | some (.dict es) =>
          let merged := mergeMasterDict es inc
          if pyEq (.dict merged) (.dict es) then (cur, upd)
          else (setKey "master" (.dict merged) cur, true)
        | _ =>
          let cur1 := setKey "master" (.dict []) cur
          let merged := mergeMasterDict [] inc
          if pyEq (.dict merged) (.dict []) then (cur1, upd)
          else (setKey "master" (.dict merged) cur1, true)
      | _ => (cur, upd)
    else (cur, upd)

/-- The entry list the master block acts on, when it acts: the value of
`event.get("master_status") or event.get("master")` provided it is a
mapping (the block is a no-op otherwise, whether because neither key is
present or because the selected value is not a mapping). -/
def incomingMasterDict (e : Event) : Option (List (String × JVal)) :=
  let incoming : Option JVal :=
    match e.master_status with
    | some v => if truthy v then some v else e.master
    | none => e.master
  match incoming with
  | some (.dict inc) => some inc
  | _ => none

/-- The master block's action once an incoming mapping has been selected
(a restructuring of `masterRule` convenient for case analysis; see
`masterRule_eq`). -/
def applyMasterDict (inc : List (String × JVal)) (cur : StateDict) (upd : Bool) :
    StateDict × Bool :=
  match pyLookup "master" cur with
  | some (.dict es) =>
    if pyEq (.dict (mergeMasterDict es inc)) (.dict es) then (cur, upd)
    else (setKey "master" (.dict (mergeMasterDict es inc)) cur, true)
  | _ =>
    if pyEq (.dict (mergeMasterDict [] inc)) (.dict []) then
      (setKey "master" (.dict []) cur, upd)
    else (setKey "master" (.dict (mergeMasterDict [] inc))
      (setKey "master" (.dict []) cur), true)

/-- The `outputs` block: a wholesale replacement that unconditionally sets
the updated flag whenever the key is present with a sequence value. -/
def outputsRule (e : Event) : StateDict × Bool → StateDict × Bool
  | (cur, upd) =>
    match e.outputs with
    | some xs => (setKey "outputs" (.list xs) cur, true)
    | none => (cur, upd)

/-- The nested `levels` block: the same per-key rounding/comparison as the
top-level loop, fed from `event["levels"]`. -/
def nestedLevelsRule (e : Event) : StateDict × Bool → StateDict × Bool
  | s =>
    match e.levels with
    | some ld =>
      mergeLevelList "output_levels" ld.output_levels
        (mergeLevelList "input_levels" ld.input_levels s)
    | none => s

/-- `_levels_callback` from `coordinator.py`, minus the final
`async_set_updated_data` call: starting from `current = dict(self.data or {})`
and `updated = False`, apply the four blocks in source order and return
the working copy together with the updated flag. -/
def levels_callback (data : Option StateDict) (e : Event) : StateDict × Bool :=
  nestedLevelsRule e (outputsRule e (masterRule e
    (mergeLevelList "output_levels" e.output_levels
      (mergeLevelList "input_levels" e.input_levels (data.getD [], false)))))

/-- The four blocks of `_levels_callback` as a function of the working
state: `levels_callback data e = mergeStages e (data.getD [], false)`
definitionally. -/
def mergeStages (e : Event) (s : StateDict × Bool) : StateDict × Bool :=
  nestedLevelsRule e (outputsRule e (masterRule e
    (mergeLevelList "output_levels" e.output_levels
      (mergeLevelList "input_levels" e.input_levels s))))

/-- The observable effect of one `_levels_callback` invocation on the
coordinator: `async_set_updated_data(current)` (which replaces `self.data`
and notifies every registered listener) runs only when the updated flag is
set; otherwise `self.data` keeps its previous object and nobody is
notified.  Returns the new `self.data` and whether a notification fired. -/
def callbackEffect (data : Option StateDict) (e : Event) : Option StateDict × Bool :=
  let r := levels_callback data e
  (if r.2 then some r.1 else data, r.2)

/-- The result of one `ws_connect` attempt in `_ws_listener_task`: either
it raises (`aiohttp.ClientError` / `asyncio.TimeoutError`), or the
connection opens and delivers the given text frames (identified by
numbers) before closing. -/
inductive Outcome where
  | fail
  | conn (frames : List Nat)
deriving DecidableEq

/-- The program point the websocket listener task is suspended at:
the top-of-loop `while not self._stop_event.is_set()` check, the
`async for msg in ws` receive loop with the frames still to come, the
`if self._stop_event.is_set(): break` check after the connection block,
the `await asyncio.sleep(backoff)`, or the task having returned. -/
inductive Phase where
  | check
  | recv (frames : List Nat)
  | post
  | sleeping
  | fin
deriving DecidableEq

/-- The mutable state of one `MiniDSPAPI` instance together with its
listener task: `_listeners` (callbacks identified by numbers), whether
`_ws_task` is not `None`, whether that task has completed, whether
`_stop_event` is set, the task-local `backoff` variable, the task's
program point, the environment's schedule of connection outcomes, and two
logs — the durations slept and the `(listener, frame)` deliveries made. -/
structure Client where
  listeners : List Nat
  hasTask : Bool
  taskDone : Bool
  stopSet : Bool
  backoff : Nat
  phase : Phase
  schedule : List Outcome
  sleeps : List Nat
  delivered : List (Nat × Nat)
deriving DecidableEq

/-- A fresh `MiniDSPAPI` instance (no listeners, `_ws_task is None`,
`_stop_event` unset), facing the given schedule of connection outcomes. -/
def initClient (sched : List Outcome) : Client :=
  { listeners := [], hasTask := false, taskDone := false, stopSet := false,
    backoff := 1, phase := .check, schedule := sched, sleeps := [], delivered := [] }

/-- `async_subscribe_levels` from `api.py`: append the callback to
`_listeners`; if `_ws_task is None`, create the listener task (which
starts at the top-of-loop check with its local `backoff = 1.0`).  The
stop event is NOT cleared and an existing `_ws_task` — even a completed
one — is kept. -/
def subscribeOp (cb : Nat) (c : Client) : Client :=
  let c' := { c with listeners := c.listeners ++ [cb] }
  if c'.hasTask then c'
  else { c' with hasTask := true, taskDone := false, backoff := 1, phase := .check }

/-- The unsubscribe closure returned by `async_subscribe_levels`: remove
the callback from `_listeners` if present; if no listener remains, set
`_stop_event`. -/
def unsubscribeOp (cb : Nat) (c : Client) : Client :=
  let ls := c.listeners.erase cb
  { c with listeners := ls, stopSet := c.stopSet || ls.isEmpty }

/-- One scheduling step of `_ws_listener_task` (a no-op when the task does
not exist or has completed):

* at the top-of-loop check, exit if the stop event is set, otherwise
  attempt `ws_connect` — a failure is caught and falls through to the
  post-connection check, a success resets `backoff` to 1 and enters the
  receive loop (an exhausted schedule behaves like a failing attempt);
* in the receive loop, each text frame is dispatched to every currently
  registered listener (in registration order) and the loop moves on; when
  the connection closes the task falls through to the post check;
* at the post check, exit if the stop event is set, otherwise sleep;
* completing the sleep records the slept duration and doubles `backoff`,
  capping it at 60, then returns to the top-of-loop check. -/
def loopStep (c : Client) : Client :=
  if !c.hasTask || c.taskDone then c else
  match c.phase with
  | .check =>
    if c.stopSet then { c with taskDone := true, phase := .fin }
    else
      match c.schedule with
      | .fail :: rest => { c with schedule := rest, phase := .post }
      | .conn fs :: rest => { c with schedule := rest, backoff := 1, phase := .recv fs }
      | [] => { c with phase := .post }
  | .recv (f :: fs) =>
    { c with delivered := c.delivered ++ c.listeners.map (fun cb => (cb, f)),
             phase := .recv fs }
  | .recv [] => { c with phase := .post }
  | .post =>
    if c.stopSet then { c with taskDone := true, phase := .fin }
    else { c with phase := .sleeping }
  | .sleeping =>
    { c with sleeps := c.sleeps ++ [c.backoff],
             backoff := min (c.backoff * 2) 60, phase := .check }
  | .fin => c

/-- An upper bound on the scheduling steps the listener task needs to
reach completion once the stop event is set: it finishes the current
receive loop / sleep and exits at the next stop check. -/
def stopFuel (c : Client) : Nat :=
  match c.phase with
  | .check => 1
  | .recv fs => fs.length + 2
  | .post => 1
  | .sleeping => 2
  | .fin => 0

/-- `async_disconnect` from `api.py`: if the task exists and has not
completed, set the stop event and await the task — modelled by running
the task until it is done (it is, after at most `stopFuel` steps). -/
def async_disconnect (c : Client) : Client :=
  if c.hasTask && !c.taskDone then
    let c1 := { c with stopSet := true }
    loopStep^[stopFuel c1] c1
  else c

/-- The C3 scenario client: subscribe a callback, unsubscribe it (last
subscriber — the stop event is set), disconnect (the loop exits), then
subscribe a second callback on the same instance.  The device schedule
would serve two connections, each delivering a frame, if the loop ran. -/
def deadClient : Client :=
  subscribeOp 1 (async_disconnect (unsubscribeOp 0
    (subscribeOp 0 (initClient [.conn [5], .conn [7]]))))

/-- The C8 scenario: two subscribers register (with arbitrary scheduling
of the listener task in between). -/
def twoSubs (a b : Nat) (sched : List Outcome) (n1 n2 : Nat) : Client :=
  loopStep^[n2] (subscribeOp b (loopStep^[n1] (subscribeOp a (initClient sched))))

/-- The C8 scenario after the first of the two subscribers revokes. -/
def oneUnsub (a b : Nat) (sched : List Outcome) (n1 n2 : Nat) : Client :=
  unsubscribeOp a (twoSubs a b sched n1 n2)

/-- The C8 scenario after both subscribers have revoked. -/
def twoUnsubs (a b : Nat) (sched : List Outcome) (n1 n2 n3 : Nat) : Client :=
  unsubscribeOp b (loopStep^[n3] (oneUnsub a b sched n1 n2))

/-- A registered listener callback for the fan-out model: identified by a
number, together with the set of events on which the coroutine raises. -/
structure Listener where
  id : Nat
  raises : Nat → Bool

/-- `await cb(event)` in exception semantics: the coroutine either raises
or returns. -/
def runListener (l : Listener) (ev : Nat) : Except Unit Unit :=
  if l.raises ev then .error () else .ok ()

/-- The `try/except Exception` wrapped around each callback invocation in
`_dispatch_event`: a raising listener is logged and the exception is
swallowed. -/
def tryExceptLog (r : Except Unit Unit) : Except Unit Unit :=
  match r with
  | .error _ => .ok ()
  | .ok u => .ok u

/-- `_dispatch_event` from `api.py` in exception semantics over the
snapshot `list(self._listeners)`: invoke each callback in order inside the
`try/except`, collecting the invocation order; an uncaught exception
would abort the remaining invocations through the monad. -/
def dispatch_event (ls : List Listener) (ev : Nat) : Except Unit (List Nat) :=
  match ls with
  | [] => pure []
  | l :: rest => do
    let _ ← tryExceptLog (runListener l ev)
    let ids ← dispatch_event rest ev
    pure (l.id :: ids)

/-- The keys of a dict, in insertion order. -/
def dictKeys (m : List (String × JVal)) : List String := m.map Prod.fst

/-- Apply a sequence of `d[k] = v` assignments in order (the shape of the
`for m_key, m_val in incoming_master.items()` loop, with the values
already transformed). -/
def writeAll (m : List (String × JVal)) (as : List (String × JVal)) :
    List (String × JVal) :=
  as.foldl (fun acc kv => setKey kv.1 kv.2 acc) m

/-- The last value a sequence of assignments writes to `k`, if any. -/
def lastWrite (k : String) : List (String × JVal) → Option JVal
  | [] => none
  | kv :: rest =>
    match lastWrite k rest with
    | some v => some v
    | none => if kv.1 = k then some kv.2 else none

/-- `v` is not a Python float. -/
def notFloat : JVal → Bool
  | .float _ => false
  | _ => true

/-- The event carries no level key both at top level and nested inside a
`levels` mapping (when it does, the two writes to the same key can flap
the stored value on every application). -/
def noLevelOverlap (e : Event) : Bool :=
  match e.levels with
  | none => true
  | some ld =>
    (e.input_levels.isNone || ld.input_levels.isNone) &&
    (e.output_levels.isNone || ld.output_levels.isNone)

/-- The coordinator data's `master` mapping, when present, has pairwise
distinct keys — automatic for a dict decoded from JSON or built by the
code, where keys are unique by construction. -/
def masterKeysNodup (data : Option StateDict) : Prop :=
  ∀ es, pyLookup "master" (data.getD []) = some (.dict es) →
    (es.map Prod.fst).Nodup

/-- The stored-state invariant the merge engine actually maintains: the
two level lists and the `master` mapping never hold a raw float at entry
level (the `outputs` field is exempt — it is stored verbatim). -/
def noFloatEntries (st : StateDict) : Prop :=
  (∀ xs, pyLookup "input_levels" st = some (.list xs) → ∀ v ∈ xs, notFloat v = true) ∧
  (∀ xs, pyLookup "output_levels" st = some (.list xs) → ∀ v ∈ xs, notFloat v = true) ∧
  (∀ es, pyLookup "master" st = some (.dict es) → ∀ kv ∈ es, notFloat kv.2 = true)

/-- What a full refresh guarantees: no raw float survives at the top
level, directly inside a top-level sequence, or directly inside a
top-level mapping (values nested deeper are out of `_rounded_levels`'
reach). -/
def depth1NoFloat (st : StateDict) : Prop :=
  ∀ kv ∈ st, notFloat kv.2 = true ∧
    (∀ xs, kv.2 = JVal.list xs → ∀ v ∈ xs, notFloat v = true) ∧
    (∀ es, kv.2 = JVal.dict es → ∀ kv2 ∈ es, notFloat kv2.2 = true)


theorem pyLookup_setKey_self (k : String) (v : JVal) (m : List (String × JVal)) :
    pyLookup k (setKey k v m) = some v := by
  induction m with
  | nil => simp [setKey, pyLookup]
  | cons kv rest ih =>
    obtain ⟨k', v'⟩ := kv
    by_cases h : k' = k
    · subst h; simp [setKey, pyLookup]
    · simp [setKey, pyLookup, h, ih]

theorem pyLookup_setKey_ne (k k' : String) (hne : k' ≠ k) (v : JVal)
    (m : List (String × JVal)) :
    pyLookup k (setKey k' v m) = pyLookup k m := by
  induction m with
  | nil => simp [setKey, pyLookup, hne]
  | cons kv rest ih =>
    obtain ⟨k'', v''⟩ := kv
    by_cases h : k'' = k'
    · subst h; simp [setKey, pyLookup, hne]
    · by_cases h2 : k'' = k
      · subst h2; simp [setKey, pyLookup, h]
      · simp [setKey, pyLookup, h, h2, ih]

mutual

theorem pyEq_refl : (v : JVal) → pyEq v v = true
  | .null => rfl
  | .bool b => by simp [pyEq, toQ]
  | .int n => by simp [pyEq, toQ]
  | .float q => by simp [pyEq, toQ]
  | .str s => by simp [pyEq]
  | .list xs => by simpa [pyEq] using pyEqList_refl xs
  | .dict es => by simpa [pyEq] using pyEqDict_refl es

theorem pyEqList_refl : (xs : List JVal) → pyEqList xs xs = true
  | [] => rfl
  | x :: xs => by simp [pyEqList, pyEq_refl x, pyEqList_refl xs]

theorem pyEqDict_refl : (es : List (String × JVal)) → pyEqDict es es = true
  | [] => rfl
  | (k, v) :: es => by
    simp [pyEqDict, pyLookup, removeKey, pyEq_refl v, pyEqDict_refl es]

end

theorem mergeMasterDict_eq_writeAll (cur inc : List (String × JVal)) :
    mergeMasterDict cur inc = writeAll cur (inc.map fun kv => (kv.1, roundVal kv.2)) := by
  simp [mergeMasterDict, writeAll, List.foldl_map]

theorem writeAll_cons (m : List (String × JVal)) (kv : String × JVal)
    (rest : List (String × JVal)) :
    writeAll m (kv :: rest) = writeAll (setKey kv.1 kv.2 m) rest := rfl

theorem pyLookup_writeAll (k : String) (as m : List (String × JVal)) :
    pyLookup k (writeAll m as) =
      match lastWrite k as with
      | some v => some v
      | none => pyLookup k m := by
  induction as generalizing m with
  | nil => simp [writeAll, lastWrite]
  | cons kv rest ih =>
    obtain ⟨k', v'⟩ := kv
    rw [writeAll_cons, ih]
    cases h : lastWrite k rest with
    | some v => simp [lastWrite, h]
    | none =>
      by_cases hk : k' = k
      · subst hk; simp [lastWrite, h, pyLookup_setKey_self]
      · simp [lastWrite, h, hk, pyLookup_setKey_ne k k' hk]

theorem dictKeys_setKey (k : String) (v : JVal) (m : List (String × JVal)) :
    dictKeys (setKey k v m) =
      if k ∈ dictKeys m then dictKeys m else dictKeys m ++ [k] := by
  induction m with
  | nil => simp [setKey, dictKeys]
  | cons kv rest ih =>
    obtain ⟨k', v'⟩ := kv
    by_cases h : k' = k
    · subst h; simp [setKey, dictKeys]
    · have hne : k ≠ k' := fun he => h he.symm
      simp only [setKey, if_neg h, dictKeys, List.map_cons] at ih ⊢
      rw [ih]
      by_cases h2 : k ∈ rest.map Prod.fst
      · simp [List.mem_cons, hne, h2]
      · simp [List.mem_cons, hne, h2]

theorem mem_dictKeys_setKey_self (k : String) (v : JVal) (m : List (String × JVal)) :
    k ∈ dictKeys (setKey k v m) := by
  rw [dictKeys_setKey]
  by_cases h : k ∈ dictKeys m <;> simp [h]

theorem mem_dictKeys_setKey_of_mem {k' : String} (k : String) (v : JVal)
    (m : List (String × JVal)) (h : k' ∈ dictKeys m) :
    k' ∈ dictKeys (setKey k v m) := by
  rw [dictKeys_setKey]
  by_cases h2 : k ∈ dictKeys m <;> simp [h2, h]

theorem nodup_dictKeys_setKey (k : String) (v : JVal) (m : List (String × JVal))
    (h : (dictKeys m).Nodup) : (dictKeys (setKey k v m)).Nodup := by
  rw [dictKeys_setKey]
  by_cases h2 : k ∈ dictKeys m
  · simpa [h2] using h
  · simp only [h2, if_false]
    simpa [List.nodup_append, h2] using h

theorem pyLookup_eq_none_of_not_mem {k : String} {m : List (String × JVal)}
    (h : k ∉ dictKeys m) : pyLookup k m = none := by
  induction m with
  | nil => rfl
  | cons kv rest ih =>
    obtain ⟨k', v'⟩ := kv
    rw [dictKeys, List.map_cons, List.mem_cons] at h
    push_neg at h
    rw [pyLookup, if_neg (fun he => h.1 he.symm)]
    exact ih h.2

theorem dict_ext (m : List (String × JVal)) : ∀ m' : List (String × JVal),
    dictKeys m = dictKeys m' → (dictKeys m).Nodup →
    (∀ k, pyLookup k m = pyLookup k m') → m = m' := by
  induction m with
  | nil =>
    intro m' hk _ _
    cases m' with
    | nil => rfl
    | cons kv rest => simp [dictKeys] at hk
  | cons kv rest ih =>
    obtain ⟨k, v⟩ := kv
    intro m' hk hnd hl
    cases m' with
    | nil => simp [dictKeys] at hk
    | cons kv' rest' =>
      obtain ⟨k2, v2⟩ := kv'
      simp only [dictKeys, List.map_cons, List.cons.injEq] at hk
      obtain ⟨rfl, hk2⟩ := hk
      have hv : v = v2 := by
        have hvv := hl k
        simpa [pyLookup] using hvv
      subst hv
      simp only [dictKeys, List.map_cons, List.nodup_cons] at hnd
      have htail : ∀ k', pyLookup k' rest = pyLookup k' rest' := by
        intro k'
        by_cases hkk : k = k'
        · subst hkk
          have hnd1' : k ∉ dictKeys rest' := by
            rw [dictKeys, ← hk2]; exact hnd.1
          rw [pyLookup_eq_none_of_not_mem hnd.1, pyLookup_eq_none_of_not_mem hnd1']
        · have hvv := hl k'
          rw [pyLookup, if_neg hkk, pyLookup, if_neg hkk] at hvv
          exact hvv
      exact congrArg (List.cons (k, v)) (ih rest' hk2 hnd.2 htail)

theorem mem_dictKeys_writeAll_of_mem (as : List (String × JVal)) {k : String}
    {m : List (String × JVal)} (h : k ∈ dictKeys m) :
    k ∈ dictKeys (writeAll m as) := by
  induction as generalizing m with
  | nil => exact h
  | cons kv rest ih =>
    rw [writeAll_cons]
    exact ih (mem_dictKeys_setKey_of_mem kv.1 kv.2 m h)

theorem mem_dictKeys_writeAll_of_write {as : List (String × JVal)} {k : String}
    (m : List (String × JVal)) (h : k ∈ as.map Prod.fst) :
    k ∈ dictKeys (writeAll m as) := by
  induction as generalizing m with
  | nil => simp at h
  | cons kv rest ih =>
    rw [List.map_cons, List.mem_cons] at h
    rw [writeAll_cons]
    rcases h with h | h
    · rw [h]
      exact mem_dictKeys_writeAll_of_mem rest (mem_dictKeys_setKey_self kv.1 kv.2 m)
    · exact ih _ h

theorem dictKeys_writeAll_of_all_mem (as : List (String × JVal)) :
    ∀ m : List (String × JVal), (∀ kv ∈ as, kv.1 ∈ dictKeys m) →
    dictKeys (writeAll m as) = dictKeys m := by
  induction as with
  | nil => intro m _; rfl
  | cons kv rest ih =>
    intro m h
    have hmem : kv.1 ∈ dictKeys m := h kv (List.mem_cons_self kv rest)
    have hset : dictKeys (setKey kv.1 kv.2 m) = dictKeys m := by
      rw [dictKeys_setKey, if_pos hmem]
    rw [writeAll_cons, ih (setKey kv.1 kv.2 m)
      (fun kv' h' => hset ▸ h kv' (List.mem_cons_of_mem kv h')), hset]

theorem nodup_dictKeys_writeAll (as : List (String × JVal)) :
    ∀ m : List (String × JVal), (dictKeys m).Nodup →
    (dictKeys (writeAll m as)).Nodup := by
  induction as with
  | nil => intro m h; exact h
  | cons kv rest ih =>
    intro m h
    rw [writeAll_cons]
    exact ih _ (nodup_dictKeys_setKey kv.1 kv.2 m h)

theorem writeAll_writeAll (m as : List (String × JVal))
    (h : (dictKeys m).Nodup) :
    writeAll (writeAll m as) as = writeAll m as := by
  apply dict_ext
  · exact dictKeys_writeAll_of_all_mem as (writeAll m as)
      (fun kv hkv => mem_dictKeys_writeAll_of_write m (List.mem_map_of_mem Prod.fst hkv))
  · rw [dictKeys_writeAll_of_all_mem as (writeAll m as)
      (fun kv hkv => mem_dictKeys_writeAll_of_write m (List.mem_map_of_mem Prod.fst hkv))]
    exact nodup_dictKeys_writeAll as m h
  · intro k
    simp only [pyLookup_writeAll]
    cases lastWrite k as <;> simp

theorem mergeMasterDict_idem (cur inc : List (String × JVal))
    (h : (dictKeys cur).Nodup) :
    mergeMasterDict (mergeMasterDict cur inc) inc = mergeMasterDict cur inc := by
  rw [mergeMasterDict_eq_writeAll cur inc, mergeMasterDict_eq_writeAll _ inc]
  exact writeAll_writeAll cur _ h

theorem setKey_entries_prop {P : JVal → Prop} (k : String) (v : JVal)
    (m : List (String × JVal)) (hm : ∀ kv ∈ m, P kv.2) (hv : P v) :
    ∀ kv ∈ setKey k v m, P kv.2 := by
  induction m with
  | nil => simpa [setKey] using hv
  | cons kv0 rest ih =>
    obtain ⟨k0, v0⟩ := kv0
    by_cases h : k0 = k
    · subst h
      rw [setKey, if_pos rfl]
      intro kv hkv
      rcases List.mem_cons.1 hkv with h' | h'
      · subst h'; exact hv
      · exact hm kv (List.mem_cons_of_mem _ h')
    · rw [setKey, if_neg h]
      intro kv hkv
      rcases List.mem_cons.1 hkv with h' | h'
      · subst h'; exact hm (k0, v0) (List.mem_cons_self _ _)
      · exact ih (fun kv' h'' => hm kv' (List.mem_cons_of_mem _ h'')) kv h'

theorem writeAll_entries_prop {P : JVal → Prop} (as : List (String × JVal)) :
    ∀ m : List (String × JVal), (∀ kv ∈ m, P kv.2) → (∀ kv ∈ as, P kv.2) →
    ∀ kv ∈ writeAll m as, P kv.2 := by
  induction as with
  | nil => intro m hm _; exact hm
  | cons kv0 rest ih =>
    intro m hm has
    rw [writeAll_cons]
    exact ih _ (setKey_entries_prop kv0.1 kv0.2 m hm (has kv0 (List.mem_cons_self _ _)))
      (fun kv' h' => has kv' (List.mem_cons_of_mem _ h'))

theorem notFloat_roundVal (v : JVal) : notFloat (roundVal v) = true := by
  cases v <;> simp [roundVal, isNumeric, notFloat]

theorem mergeMasterDict_entries_prop {P : JVal → Prop}
    (cur inc : List (String × JVal)) (hm : ∀ kv ∈ cur, P kv.2)
    (hr : ∀ v : JVal, P (roundVal v)) :
    ∀ kv ∈ mergeMasterDict cur inc, P kv.2 := by
  rw [mergeMasterDict_eq_writeAll]
  refine writeAll_entries_prop _ cur hm ?_
  intro kv hkv
  rw [List.mem_map] at hkv
  obtain ⟨kv0, _, rfl⟩ := hkv
  exact hr kv0.2

theorem masterRule_eq (e : Event) (cur : StateDict) (upd : Bool) :
    masterRule e (cur, upd) =
      match incomingMasterDict e with
      | some inc => applyMasterDict inc cur upd
      | none => (cur, upd) := by
  rcases e with ⟨il, ol, ms, ma, os, lv⟩
  cases ms with
  | none =>
    cases ma with
    | none => rfl
    | some v => cases v <;> rfl
  | some v =>
    by_cases ht : truthy v = true
    · cases v <;> simp_all [masterRule, incomingMasterDict, applyMasterDict, truthy]
    · rw [Bool.not_eq_true] at ht
      cases ma with
      | none => cases v <;> simp_all [masterRule, incomingMasterDict, truthy]
      | some w =>
        cases w <;> cases v <;>
          simp_all [masterRule, incomingMasterDict, applyMasterDict, truthy]

theorem setKey_setKey (k : String) (v w : JVal) (m : List (String × JVal)) :
    setKey k v (setKey k w m) = setKey k v m := by
  induction m with
  | nil => simp [setKey]
  | cons kv rest ih =>
    obtain ⟨k', v'⟩ := kv
    by_cases h : k' = k
    · subst h; simp [setKey]
    · simp [setKey, h, ih]

theorem mergeLevelList_none (key : String) (cur : StateDict) (upd : Bool) :
    mergeLevelList key none (cur, upd) = (cur, upd) := rfl

theorem mergeLevelList_skip (key : String) (vs : List JVal) (cur : StateDict)
    (upd : Bool) (c : JVal) (hc : pyLookup key cur = some c)
    (he : pyEq (.list (vs.map roundVal)) c = true) :
    mergeLevelList key (some vs) (cur, upd) = (cur, upd) := by
  simp [mergeLevelList, hc, he]

theorem mergeLevelList_post (key : String) (vs : List JVal) (cur : StateDict)
    (upd : Bool) :
    ∃ w, pyLookup key (mergeLevelList key (some vs) (cur, upd)).1 = some w ∧
      pyEq (.list (vs.map roundVal)) w = true := by
  unfold mergeLevelList
  cases hc : pyLookup key cur with
  | some c =>
    by_cases he : pyEq (.list (vs.map roundVal)) c = true
    · exact ⟨c, by simp [hc, he], he⟩
    · refine ⟨.list (vs.map roundVal), ?_, pyEq_refl _⟩
      simp [hc, he, pyLookup_setKey_self]
  | none =>
    refine ⟨.list (vs.map roundVal), ?_, pyEq_refl _⟩
    simp [hc, pyLookup_setKey_self]

theorem mergeLevelList_frame (key : String) (vals : Option (List JVal))
    (cur : StateDict) (upd : Bool) (k : String) (hk : k ≠ key) :
    pyLookup k (mergeLevelList key vals (cur, upd)).1 = pyLookup k cur := by
  cases vals with
  | none => rfl
  | some vs =>
    unfold mergeLevelList
    cases hc : pyLookup key cur with
    | some c =>
      by_cases he : pyEq (.list (vs.map roundVal)) c = true
      · simp [hc, he]
      · simp [hc, he, pyLookup_setKey_ne k key (Ne.symm hk)]
    | none => simp [hc, pyLookup_setKey_ne k key (Ne.symm hk)]


theorem applyMasterDict_skip (inc : List (String × JVal)) (cur : StateDict)
    (upd : Bool) (es : List (String × JVal))
    (hm : pyLookup "master" cur = some (.dict es))
    (he : pyEq (.dict (mergeMasterDict es inc)) (.dict es) = true) :
    applyMasterDict inc cur upd = (cur, upd) := by
  simp [applyMasterDict, hm, he]

theorem applyMasterDict_frame (inc : List (String × JVal)) (cur : StateDict)
    (upd : Bool) (k : String) (hk : k ≠ "master") :
    pyLookup k (applyMasterDict inc cur upd).1 = pyLookup k cur := by
  have hne : "master" ≠ k := Ne.symm hk
  unfold applyMasterDict
  split
  · split
    · rfl
    · simp [pyLookup_setKey_ne k "master" hne]
  · split
    · simp [pyLookup_setKey_ne k "master" hne]
    · simp [pyLookup_setKey_ne k "master" hne]

theorem applyMasterDict_post (inc : List (String × JVal)) (cur : StateDict)
    (upd : Bool)
    (hnd : ∀ es, pyLookup "master" cur = some (.dict es) → (dictKeys es).Nodup) :
    ∃ X, pyLookup "master" (applyMasterDict inc cur upd).1 = some (.dict X) ∧
      pyEq (.dict (mergeMasterDict X inc)) (.dict X) = true := by
  unfold applyMasterDict
  split
  · rename_i v es heq
    by_cases he : pyEq (.dict (mergeMasterDict es inc)) (.dict es) = true
    · rw [if_pos he]
      exact ⟨es, heq, he⟩
    · rw [if_neg he]
      refine ⟨mergeMasterDict es inc, by simp [pyLookup_setKey_self], ?_⟩
      rw [mergeMasterDict_idem es inc (hnd es heq)]
      exact pyEq_refl _
  · by_cases he : pyEq (.dict (mergeMasterDict [] inc)) (.dict []) = true
    · rw [if_pos he]
      have hmm : mergeMasterDict [] inc = [] := by
        rcases h2 : mergeMasterDict [] inc with _ | ⟨kv, rest⟩
        · rfl
        · rw [h2] at he
          simp [pyEq, pyEqDict, pyLookup] at he
      refine ⟨[], by simp [pyLookup_setKey_self], ?_⟩
      rw [hmm]
      exact pyEq_refl _
    · rw [if_neg he]
      refine ⟨mergeMasterDict [] inc, by simp [pyLookup_setKey_self], ?_⟩
      rw [mergeMasterDict_idem [] inc (by simp [dictKeys])]
      exact pyEq_refl _

theorem levels_callback_eq_mergeStages (data : Option StateDict) (e : Event) :
    levels_callback data e = mergeStages e (data.getD [], false) := rfl

theorem masterRule_none (e : Event) (cur : StateDict) (upd : Bool)
    (h : incomingMasterDict e = none) : masterRule e (cur, upd) = (cur, upd) := by
  rw [masterRule_eq, h]

theorem masterRule_some (e : Event) (cur : StateDict) (upd : Bool)
    (inc : List (String × JVal)) (h : incomingMasterDict e = some inc) :
    masterRule e (cur, upd) = applyMasterDict inc cur upd := by
  rw [masterRule_eq, h]

theorem masterRule_frame (e : Event) (cur : StateDict) (upd : Bool) (k : String)
    (hk : k ≠ "master") :
    pyLookup k (masterRule e (cur, upd)).1 = pyLookup k cur := by
  rw [masterRule_eq]
  cases h : incomingMasterDict e with
  | none => rfl
  | some inc => exact applyMasterDict_frame inc cur upd k hk

theorem outputsRule_none (e : Event) (cur : StateDict) (upd : Bool)
    (h : e.outputs = none) : outputsRule e (cur, upd) = (cur, upd) := by
  simp [outputsRule, h]

theorem nestedLevelsRule_none (e : Event) (s : StateDict × Bool)
    (h : e.levels = none) : nestedLevelsRule e s = s := by
  simp [nestedLevelsRule, h]

theorem nestedLevelsRule_some (e : Event) (s : StateDict × Bool)
    (ld : LevelsDict) (h : e.levels = some ld) :
    nestedLevelsRule e s =
      mergeLevelList "output_levels" ld.output_levels
        (mergeLevelList "input_levels" ld.input_levels s) := by
  simp [nestedLevelsRule, h]

theorem mergeStages_idem (e : Event) (cur : StateDict)
    (ho : e.outputs = none) (hov : noLevelOverlap e = true)
    (hnd : ∀ es, pyLookup "master" cur = some (.dict es) → (dictKeys es).Nodup) :
    mergeStages e ((mergeStages e (cur, false)).1, false) =
      ((mergeStages e (cur, false)).1, false) := by
  have him : ("input_levels" : String) ≠ "master" := by decide
  have hom : ("output_levels" : String) ≠ "master" := by decide
  have hio : ("input_levels" : String) ≠ "output_levels" := by decide
  have hoi : ("output_levels" : String) ≠ "input_levels" := by decide
  have hmi : ("master" : String) ≠ "input_levels" := by decide
  have hmo : ("master" : String) ≠ "output_levels" := by decide
  rcases h1 : mergeLevelList "input_levels" e.input_levels (cur, false) with ⟨c1, u1⟩
  rcases h2 : mergeLevelList "output_levels" e.output_levels (c1, u1) with ⟨c2, u2⟩
  rcases h3 : masterRule e (c2, u2) with ⟨c3, u3⟩
  rcases h5 : nestedLevelsRule e (c3, u3) with ⟨c5, u5⟩
  have hrun1 : mergeStages e (cur, false) = (c5, u5) := by
    unfold mergeStages
    rw [h1, h2, h3, outputsRule_none e c3 u3 ho, h5]
  rw [hrun1]
  -- master value is untouched by the level stages
  have hm1 : pyLookup "master" c1 = pyLookup "master" cur := by
    have t := mergeLevelList_frame "input_levels" e.input_levels cur false "master" hmi
    rw [h1] at t
    exact t
  have hm2 : pyLookup "master" c2 = pyLookup "master" cur := by
    have t := mergeLevelList_frame "output_levels" e.output_levels c1 u1 "master" hmo
    rw [h2] at t
    rw [show pyLookup "master" c2 = pyLookup "master" c1 from t, hm1]
  have hnd2 : ∀ es, pyLookup "master" c2 = some (.dict es) → (dictKeys es).Nodup := by
    intro es h
    exact hnd es (hm2 ▸ h)
  have m5 : pyLookup "master" c5 = pyLookup "master" c3 := by
    cases hlv : e.levels with
    | none =>
      rw [nestedLevelsRule_none e _ hlv] at h5
      injection h5 with hc hu
      rw [← hc]
    | some ld =>
      rw [nestedLevelsRule_some e _ ld hlv] at h5
      rcases hinner : mergeLevelList "input_levels" ld.input_levels (c3, u3) with ⟨ci, ui⟩
      rw [hinner] at h5
      have t1 := mergeLevelList_frame "input_levels" ld.input_levels c3 u3 "master" hmi
      rw [hinner] at t1
      have t2 := mergeLevelList_frame "output_levels" ld.output_levels ci ui "master" hmo
      rw [h5] at t2
      rw [show pyLookup "master" c5 = pyLookup "master" ci from t2,
        show pyLookup "master" ci = pyLookup "master" c3 from t1]
  -- top-level input fact at the final state
  have i5 : ∀ vs, e.input_levels = some vs →
      ∃ w, pyLookup "input_levels" c5 = some w ∧
        pyEq (.list (vs.map roundVal)) w = true := by
    intro vs hil
    rw [hil] at h1
    obtain ⟨w, hw, hpe⟩ := mergeLevelList_post "input_levels" vs cur false
    rw [h1] at hw
    have hw1 : pyLookup "input_levels" c1 = some w := hw
    have t2 := mergeLevelList_frame "output_levels" e.output_levels c1 u1 "input_levels" hio
    rw [h2] at t2
    have hw2 : pyLookup "input_levels" c2 = some w := by
      rw [show pyLookup "input_levels" c2 = pyLookup "input_levels" c1 from t2, hw1]
    have t3 := masterRule_frame e c2 u2 "input_levels" him
    rw [h3] at t3
    have hw3 : pyLookup "input_levels" c3 = some w := by
      rw [show pyLookup "input_levels" c3 = pyLookup "input_levels" c2 from t3, hw2]
    cases hlv : e.levels with
    | none =>
      rw [nestedLevelsRule_none e _ hlv] at h5
      injection h5 with hc hu
      exact ⟨w, hc ▸ hw3, hpe⟩
    | some ld =>
      have hovin : ld.input_levels = none := by
        simp only [noLevelOverlap, hlv] at hov
        simp [hil, Bool.and_eq_true, Option.isNone_iff_eq_none] at hov
        exact hov.1
      rw [nestedLevelsRule_some e _ ld hlv, hovin,
        mergeLevelList_none "input_levels" c3 u3] at h5
      have t5 := mergeLevelList_frame "output_levels" ld.output_levels c3 u3
        "input_levels" hio
      rw [h5] at t5
      exact ⟨w, by
        rw [show pyLookup "input_levels" c5 = pyLookup "input_levels" c3 from t5, hw3],
        hpe⟩
  -- top-level output fact at the final state
  have o5 : ∀ vs, e.output_levels = some vs →
      ∃ w, pyLookup "output_levels" c5 = some w ∧
        pyEq (.list (vs.map roundVal)) w = true := by
    intro vs hol
    rw [hol] at h2
    obtain ⟨w, hw, hpe⟩ := mergeLevelList_post "output_levels" vs c1 u1
    rw [h2] at hw
    have hw2 : pyLookup "output_levels" c2 = some w := hw
    have t3 := masterRule_frame e c2 u2 "output_levels" hom
    rw [h3] at t3
    have hw3 : pyLookup "output_levels" c3 = some w := by
      rw [show pyLookup "output_levels" c3 = pyLookup "output_levels" c2 from t3, hw2]
    cases hlv : e.levels with
    | none =>
      rw [nestedLevelsRule_none e _ hlv] at h5
      injection h5 with hc hu
      exact ⟨w, hc ▸ hw3, hpe⟩
    | some ld =>
      have hovout : ld.output_levels = none := by
        simp only [noLevelOverlap, hlv] at hov
        simp [hol, Bool.and_eq_true, Option.isNone_iff_eq_none] at hov
        exact hov.2
      rw [nestedLevelsRule_some e _ ld hlv, hovout] at h5
      rcases hinner : mergeLevelList "input_levels" ld.input_levels (c3, u3) with ⟨ci, ui⟩
      rw [hinner, mergeLevelList_none "output_levels" ci ui] at h5
      have t5 := mergeLevelList_frame "input_levels" ld.input_levels c3 u3
        "output_levels" hoi
      rw [hinner] at t5
      injection h5 with hc hu
      refine ⟨w, ?_, hpe⟩
      rw [← hc, show pyLookup "output_levels" ci = pyLookup "output_levels" c3 from t5,
        hw3]
  -- nested input fact at the final state
  have ni5 : ∀ ld ys, e.levels = some ld → ld.input_levels = some ys →
      ∃ w, pyLookup "input_levels" c5 = some w ∧
        pyEq (.list (ys.map roundVal)) w = true := by
    intro ld ys hlv hni
    rw [nestedLevelsRule_some e _ ld hlv, hni] at h5
    rcases hinner : mergeLevelList "input_levels" (some ys) (c3, u3) with ⟨ci, ui⟩
    rw [hinner] at h5
    obtain ⟨w, hw, hpe⟩ := mergeLevelList_post "input_levels" ys c3 u3
    rw [hinner] at hw
    have hwi : pyLookup "input_levels" ci = some w := hw
    have t5 := mergeLevelList_frame "output_levels" ld.output_levels ci ui
      "input_levels" hio
    rw [h5] at t5
    exact ⟨w, by
      rw [show pyLookup "input_levels" c5 = pyLookup "input_levels" ci from t5, hwi],
      hpe⟩
  -- nested output fact at the final state
  have no5 : ∀ ld ys, e.levels = some ld → ld.output_levels = some ys →
      ∃ w, pyLookup "output_levels" c5 = some w ∧
        pyEq (.list (ys.map roundVal)) w = true := by
    intro ld ys hlv hno
    rw [nestedLevelsRule_some e _ ld hlv, hno] at h5
    rcases hinner : mergeLevelList "input_levels" ld.input_levels (c3, u3) with ⟨ci, ui⟩
    rw [hinner] at h5
    obtain ⟨w, hw, hpe⟩ := mergeLevelList_post "output_levels" ys ci ui
    rw [h5] at hw
    exact ⟨w, hw, hpe⟩
  -- second application: every stage is a no-op
  have G1 : mergeLevelList "input_levels" e.input_levels (c5, false) = (c5, false) := by
    cases hil : e.input_levels with
    | none => exact mergeLevelList_none _ _ _
    | some vs =>
      obtain ⟨w, hw, hpe⟩ := i5 vs hil
      exact mergeLevelList_skip _ vs c5 false w hw hpe
  have G2 : mergeLevelList "output_levels" e.output_levels (c5, false) = (c5, false) := by
    cases hol : e.output_levels with
    | none => exact mergeLevelList_none _ _ _
    | some vs =>
      obtain ⟨w, hw, hpe⟩ := o5 vs hol
      exact mergeLevelList_skip _ vs c5 false w hw hpe
  have G3 : masterRule e (c5, false) = (c5, false) := by
    cases hin : incomingMasterDict e with
    | none => exact masterRule_none e c5 false hin
    | some inc =>
      have h3' : applyMasterDict inc c2 u2 = (c3, u3) := by
        rw [← masterRule_some e c2 u2 inc hin]
        exact h3
      obtain ⟨X, hX, hpe⟩ := applyMasterDict_post inc c2 u2 hnd2
      rw [h3'] at hX
      have hX5 : pyLookup "master" c5 = some (.dict X) := by
        rw [m5]
        exact hX
      rw [masterRule_some e c5 false inc hin]
      exact applyMasterDict_skip inc c5 false X hX5 hpe
  have G5 : nestedLevelsRule e (c5, false) = (c5, false) := by
    cases hlv : e.levels with
    | none => exact nestedLevelsRule_none e _ hlv
    | some ld =>
      rw [nestedLevelsRule_some e _ ld hlv]
      have G5a : mergeLevelList "input_levels" ld.input_levels (c5, false) = (c5, false) := by
        cases hni : ld.input_levels with
        | none => exact mergeLevelList_none _ _ _
        | some ys =>
          obtain ⟨w, hw, hpe⟩ := ni5 ld ys hlv hni
          exact mergeLevelList_skip _ ys c5 false w hw hpe
      rw [G5a]
      cases hno : ld.output_levels with
      | none => exact mergeLevelList_none _ _ _
      | some ys =>
        obtain ⟨w, hw, hpe⟩ := no5 ld ys hlv hno
        exact mergeLevelList_skip _ ys c5 false w hw hpe
  unfold mergeStages
  rw [G1, G2, G3, outputsRule_none e c5 false ho, G5]

/-- C1, counterexample: with `outputs` already `[1]` in the state, the
event `{"outputs": [1]}` produces no change to the stored state, yet a
notification fires — so notification is not equivalent to change, and the
same event re-fires on every repetition (this state is exactly what a
first application from the empty state commits). -/
theorem c1_counterexample :
    callbackEffect (some []) { outputs := some [.int 1] } =
      (some [("outputs", .list [.int 1])], true) ∧
    callbackEffect (some [("outputs", .list [.int 1])]) { outputs := some [.int 1] } =
      (some [("outputs", .list [.int 1])], true) := by
  constructor <;> decide

/-- C1 (amended): `_levels_callback` notifies exactly when its updated
flag is set; this flag implies nothing fired ⇒ state unchanged, but a
present `outputs` key sets the flag even without a change.  The amended
claim: (a) if no notification fires, the committed data is unchanged;
(b) applying the same event twice fires no second notification, provided
the event carries no `outputs` key, no level key appears both at top
level and nested under `levels`, and the stored master mapping has no
duplicate keys. -/
theorem c1_merge_notification (data : Option StateDict) (e : Event) :
    ((callbackEffect data e).2 = false → (callbackEffect data e).1 = data) ∧
    (e.outputs = none → noLevelOverlap e = true → masterKeysNodup data →
      (callbackEffect ((callbackEffect data e).1) e).2 = false) := by
  constructor
  · intro h
    unfold callbackEffect at h ⊢
    rcases hr : levels_callback data e with ⟨st, fl⟩
    cases fl
    · simp
    · rw [hr] at h
      simp at h
  · intro ho hov hnd
    rcases hr : levels_callback data e with ⟨st, fl⟩
    cases fl
    · have hpost : callbackEffect data e = (data, false) := by
        unfold callbackEffect
        rw [hr]
        simp
      rw [hpost]
      unfold callbackEffect
      rw [hr]
    · have hpost : (callbackEffect data e).1 = some st := by
        unfold callbackEffect
        rw [hr]
        simp
      rw [hpost]
      have hidem := mergeStages_idem e (data.getD []) ho hov hnd
      have hst : (mergeStages e (data.getD [], false)).1 = st := by
        rw [← levels_callback_eq_mergeStages, hr]
      unfold callbackEffect
      rw [levels_callback_eq_mergeStages]
      simp only [Option.getD_some]
      rw [← hst, hidem]

/-- C1 witness: a concrete level event applied twice from the empty state
fires once and then never again. -/
theorem c1_witness :
    ((({ input_levels := some [.float (mkRat 15 2)] } : Event).outputs = none) ∧
      noLevelOverlap { input_levels := some [.float (mkRat 15 2)] } = true) ∧
    (callbackEffect ((callbackEffect (some [])
        { input_levels := some [.float (mkRat 15 2)] }).1)
      { input_levels := some [.float (mkRat 15 2)] }).2 = false :=
  ⟨⟨rfl, rfl⟩,
    (c1_merge_notification (some []) { input_levels := some [.float (mkRat 15 2)] }).2
      rfl rfl (fun _ h => nomatch h)⟩

/-- C6 (confirmed): an event whose only present top-level key is
`input_levels` changes at most the `input_levels` field of the state —
`master`, `outputs`, `output_levels` and every other key are unchanged
after the merge. -/
theorem c6_merge_isolation (data : Option StateDict) (vs : List JVal) (k : String)
    (hk : k ≠ "input_levels") :
    pyLookup k (((callbackEffect data { input_levels := some vs }).1).getD []) =
      pyLookup k (data.getD []) := by
  unfold callbackEffect
  rw [levels_callback_eq_mergeStages]
  rcases h1 : mergeLevelList "input_levels" (some vs) (data.getD [], false) with ⟨c1, u1⟩
  have hms : mergeStages { input_levels := some vs } (data.getD [], false) = (c1, u1) := by
    unfold mergeStages
    rw [show ({ input_levels := some vs } : Event).input_levels = some vs from rfl, h1,
      mergeLevelList_none "output_levels" c1 u1,
      masterRule_none { input_levels := some vs } c1 u1 rfl,
      outputsRule_none { input_levels := some vs } c1 u1 rfl,
      nestedLevelsRule_none { input_levels := some vs } _ rfl]
  rw [hms]
  have hframe := mergeLevelList_frame "input_levels" (some vs) (data.getD []) false k hk
  rw [h1] at hframe
  cases u1
  · simp
  · simpa using hframe

/-- C6 witness: a concrete input-levels event leaves the `master` key of a
concrete state untouched. -/
theorem c6_witness :
    ("master" : String) ≠ "input_levels" ∧
    pyLookup "master" (((callbackEffect
        (some [("master", .dict [("volume", .int (-20))])])
        { input_levels := some [.int 3] }).1).getD []) =
      pyLookup "master" ((some ([("master",
        .dict [("volume", .int (-20))])] : StateDict)).getD []) :=
  ⟨by decide,
    c6_merge_isolation (some [("master", .dict [("volume", .int (-20))])])
      [.int 3] "master" (by decide)⟩

theorem rounded_levels_eq_map (d : StateDict) :
    rounded_levels d = d.map fun kv => (kv.1, roundEntryVal kv.2) := by
  induction d with
  | nil => rfl
  | cons kv rest ih =>
    obtain ⟨k0, v0⟩ := kv
    cases v0 <;> simp_all [rounded_levels, roundEntryVal]

theorem pyLookup_map_val (k : String) (d : List (String × JVal)) (f : JVal → JVal) :
    pyLookup k (d.map fun kv => (kv.1, f kv.2)) = (pyLookup k d).map f := by
  induction d with
  | nil => rfl
  | cons kv rest ih =>
    obtain ⟨k0, v0⟩ := kv
    by_cases h : k0 = k
    · subst h; simp [pyLookup]
    · simp [pyLookup, h, ih]

theorem pyLookup_rounded_levels (k : String) (d : StateDict) :
    pyLookup k (rounded_levels d) = (pyLookup k d).map roundEntryVal := by
  rw [rounded_levels_eq_map, pyLookup_map_val]

theorem rounded_levels_depth1 (d : StateDict) : depth1NoFloat (rounded_levels d) := by
  rw [rounded_levels_eq_map]
  intro kv hkv
  rw [List.mem_map] at hkv
  obtain ⟨⟨k0, v0⟩, hmem, rfl⟩ := hkv
  cases v0 with
  | list xs =>
    refine ⟨rfl, ?_, ?_⟩
    · intro xs' hxs' v hv
      simp only [roundEntryVal] at hxs'
      cases hxs'
      rw [List.mem_map] at hv
      obtain ⟨v1, _, rfl⟩ := hv
      exact notFloat_roundVal v1
    · intro es hes
      simp [roundEntryVal] at hes
  | dict es =>
    refine ⟨rfl, ?_, ?_⟩
    · intro xs hxs
      simp [roundEntryVal] at hxs
    · intro es' hes' kv2 hkv2
      simp only [roundEntryVal] at hes'
      cases hes'
      rw [List.mem_map] at hkv2
      obtain ⟨kv3, _, rfl⟩ := hkv2
      exact notFloat_roundVal kv3.2
  | null =>
    refine ⟨by simp [roundEntryVal, notFloat_roundVal], ?_, ?_⟩ <;> intro a ha <;>
      simp [roundEntryVal, roundVal, isNumeric] at ha
  | bool b =>
    refine ⟨by simp [roundEntryVal, notFloat_roundVal], ?_, ?_⟩ <;> intro a ha <;>
      simp [roundEntryVal, roundVal, isNumeric] at ha
  | int n =>
    refine ⟨by simp [roundEntryVal, notFloat_roundVal], ?_, ?_⟩ <;> intro a ha <;>
      simp [roundEntryVal, roundVal, isNumeric] at ha
  | float q =>
    refine ⟨by simp [roundEntryVal, notFloat_roundVal], ?_, ?_⟩ <;> intro a ha <;>
      simp [roundEntryVal, roundVal, isNumeric] at ha
  | str s =>
    refine ⟨by simp [roundEntryVal, notFloat_roundVal], ?_, ?_⟩ <;> intro a ha <;>
      simp [roundEntryVal, roundVal, isNumeric] at ha

theorem noFloatEntries_setKey_level (key : String)
    (hkey : key = "input_levels" ∨ key = "output_levels") (vs : List JVal)
    (cur : StateDict) (h : noFloatEntries cur)
    (hvs : ∀ x ∈ vs, notFloat x = true) :
    noFloatEntries (setKey key (.list vs) cur) := by
  obtain ⟨hin, hout, hmas⟩ := h
  rcases hkey with rfl | rfl
  · refine ⟨?_, ?_, ?_⟩
    · intro xs hxs v hv
      rw [pyLookup_setKey_self] at hxs
      cases hxs
      exact hvs v hv
    · intro xs hxs v hv
      rw [pyLookup_setKey_ne _ _ (by decide)] at hxs
      exact hout xs hxs v hv
    · intro es hes kv hkv
      rw [pyLookup_setKey_ne _ _ (by decide)] at hes
      exact hmas es hes kv hkv
  · refine ⟨?_, ?_, ?_⟩
    · intro xs hxs v hv
      rw [pyLookup_setKey_ne _ _ (by decide)] at hxs
      exact hin xs hxs v hv
    · intro xs hxs v hv
      rw [pyLookup_setKey_self] at hxs
      cases hxs
      exact hvs v hv
    · intro es hes kv hkv
      rw [pyLookup_setKey_ne _ _ (by decide)] at hes
      exact hmas es hes kv hkv

theorem noFloatEntries_setKey_master (es : List (String × JVal)) (cur : StateDict)
    (h : noFloatEntries cur) (hes : ∀ kv ∈ es, notFloat kv.2 = true) :
    noFloatEntries (setKey "master" (.dict es) cur) := by
  obtain ⟨hin, hout, hmas⟩ := h
  refine ⟨?_, ?_, ?_⟩
  · intro xs hxs v hv
    rw [pyLookup_setKey_ne _ _ (by decide)] at hxs
    exact hin xs hxs v hv
  · intro xs hxs v hv
    rw [pyLookup_setKey_ne _ _ (by decide)] at hxs
    exact hout xs hxs v hv
  · intro es' hes' kv hkv
    rw [pyLookup_setKey_self] at hes'
    cases hes'
    exact hes kv hkv

theorem noFloatEntries_setKey_other (key : String) (v : JVal) (cur : StateDict)
    (h : noFloatEntries cur) (h1 : key ≠ "input_levels")
    (h2 : key ≠ "output_levels") (h3 : key ≠ "master") :
    noFloatEntries (setKey key v cur) := by
  obtain ⟨hin, hout, hmas⟩ := h
  refine ⟨?_, ?_, ?_⟩
  · intro xs hxs v' hv
    rw [pyLookup_setKey_ne _ _ h1] at hxs
    exact hin xs hxs v' hv
  · intro xs hxs v' hv
    rw [pyLookup_setKey_ne _ _ h2] at hxs
    exact hout xs hxs v' hv
  · intro es hes kv hkv
    rw [pyLookup_setKey_ne _ _ h3] at hes
    exact hmas es hes kv hkv

theorem noFloatEntries_mergeLevelList (key : String)
    (hkey : key = "input_levels" ∨ key = "output_levels")
    (vals : Option (List JVal)) (cur : StateDict) (upd : Bool)
    (h : noFloatEntries cur) :
    noFloatEntries (mergeLevelList key vals (cur, upd)).1 := by
  cases vals with
  | none => exact h
  | some vs =>
    unfold mergeLevelList
    have hvs : ∀ x ∈ vs.map roundVal, notFloat x = true := by
      intro x hx
      rw [List.mem_map] at hx
      obtain ⟨x0, _, rfl⟩ := hx
      exact notFloat_roundVal x0
    cases hc : pyLookup key cur with
    | some c =>
      by_cases he : pyEq (.list (vs.map roundVal)) c = true
      · simpa [hc, he] using h
      · simp only [hc, he, if_neg]
        simpa using noFloatEntries_setKey_level key hkey (vs.map roundVal) cur h hvs
    | none =>
      simp only [hc]
      simpa using noFloatEntries_setKey_level key hkey (vs.map roundVal) cur h hvs

theorem noFloatEntries_masterRule (e : Event) (cur : StateDict) (upd : Bool)
    (h : noFloatEntries cur) :
    noFloatEntries (masterRule e (cur, upd)).1 := by
  rw [masterRule_eq]
  cases hin : incomingMasterDict e with
  | none => exact h
  | some inc =>
    show noFloatEntries (applyMasterDict inc cur upd).1
    unfold applyMasterDict
    split
    · rename_i v es heq
      by_cases he : pyEq (.dict (mergeMasterDict es inc)) (.dict es) = true
      · simpa [he] using h
      · rw [if_neg he]
        exact noFloatEntries_setKey_master _ cur h
          (@mergeMasterDict_entries_prop (fun v => notFloat v = true) es inc
            (h.2.2 es heq) notFloat_roundVal)
    · split
      · exact noFloatEntries_setKey_master [] cur h (by intro kv hkv; simp at hkv)
      · refine noFloatEntries_setKey_master _ _
          (noFloatEntries_setKey_master [] cur h (by intro kv hkv; simp at hkv)) ?_
        exact @mergeMasterDict_entries_prop (fun v => notFloat v = true) [] inc
          (by intro kv hkv; simp at hkv) notFloat_roundVal

theorem noFloatEntries_outputsRule (e : Event) (cur : StateDict) (upd : Bool)
    (h : noFloatEntries cur) :
    noFloatEntries (outputsRule e (cur, upd)).1 := by
  unfold outputsRule
  cases ho : e.outputs with
  | none => exact h
  | some xs =>
    exact noFloatEntries_setKey_other "outputs" (.list xs) cur h
      (by decide) (by decide) (by decide)

theorem noFloatEntries_mergeStages (e : Event) (cur : StateDict) (upd : Bool)
    (h : noFloatEntries cur) :
    noFloatEntries (mergeStages e (cur, upd)).1 := by
  unfold mergeStages
  rcases h1 : mergeLevelList "input_levels" e.input_levels (cur, upd) with ⟨c1, u1⟩
  have hc1 : noFloatEntries c1 := by
    have t := noFloatEntries_mergeLevelList "input_levels" (Or.inl rfl)
      e.input_levels cur upd h
    rw [h1] at t
    exact t
  rcases h2 : mergeLevelList "output_levels" e.output_levels (c1, u1) with ⟨c2, u2⟩
  have hc2 : noFloatEntries c2 := by
    have t := noFloatEntries_mergeLevelList "output_levels" (Or.inr rfl)
      e.output_levels c1 u1 hc1
    rw [h2] at t
    exact t
  rcases h3 : masterRule e (c2, u2) with ⟨c3, u3⟩
  have hc3 : noFloatEntries c3 := by
    have t := noFloatEntries_masterRule e c2 u2 hc2
    rw [h3] at t
    exact t
  rcases h4 : outputsRule e (c3, u3) with ⟨c4, u4⟩
  have hc4 : noFloatEntries c4 := by
    have t := noFloatEntries_outputsRule e c3 u3 hc3
    rw [h4] at t
    exact t
  cases hlv : e.levels with
  | none => rw [nestedLevelsRule_none e _ hlv]; exact hc4
  | some ld =>
    rw [nestedLevelsRule_some e _ ld hlv]
    rcases h5 : mergeLevelList "input_levels" ld.input_levels (c4, u4) with ⟨c5, u5⟩
    have hc5 : noFloatEntries c5 := by
      have t := noFloatEntries_mergeLevelList "input_levels" (Or.inl rfl)
        ld.input_levels c4 u4 hc4
      rw [h5] at t
      exact t
    exact noFloatEntries_mergeLevelList "output_levels" (Or.inr rfl)
      ld.output_levels c5 u5 hc5

/-- C2, counterexample: a full refresh whose `outputs` entry carries a
float gain (`-1.5`) stores that raw float unchanged — `_rounded_levels`
only reaches one level deep, so the dict inside the list is passed
through verbatim, contradicting the claimed invariant for outputs
gains. -/
theorem c2_counterexample :
    rounded_levels [("outputs",
        .list [.dict [("index", .int 0), ("gain", .float (mkRat (-3) 2))]])] =
      [("outputs",
        .list [.dict [("index", .int 0), ("gain", .float (mkRat (-3) 2))]])] := by
  decide

/-- C2 (amended): the integer-rounding invariant holds for master values
and input/output level entries, under both the full refresh and the
partial merge; `outputs` is exempt — the merge stores it verbatim and the
refresh does not reach inside its elements.  Concretely: a full refresh
leaves no float at the top level, directly inside a top-level sequence,
or directly inside a top-level mapping; and the merge preserves the
float-freeness of the two level lists and the master mapping. -/
theorem c2_rounding_invariant :
    (∀ d : StateDict, depth1NoFloat (rounded_levels d)) ∧
    (∀ (data : Option StateDict) (e : Event), noFloatEntries (data.getD []) →
      noFloatEntries (((callbackEffect data e).1).getD [])) := by
  constructor
  · exact rounded_levels_depth1
  · intro data e h
    unfold callbackEffect
    rcases hr : levels_callback data e with ⟨st, fl⟩
    cases fl
    · simpa using h
    · have hst : noFloatEntries st := by
        have t := noFloatEntries_mergeStages e (data.getD []) false h
        rw [← levels_callback_eq_mergeStages, hr] at t
        exact t
      simpa using hst

/-- C2 witness: the empty snapshot satisfies the invariant and a concrete
master event preserves it. -/
theorem c2_witness :
    noFloatEntries ((some ([] : StateDict)).getD []) ∧
    noFloatEntries (((callbackEffect (some [])
      { master_status := some (.dict [("volume", .float (mkRat (-203) 10))]) }).1).getD []) :=
  have h0 : noFloatEntries ((some ([] : StateDict)).getD []) := by
    unfold noFloatEntries
    exact ⟨fun _ h => (nomatch h), fun _ h => (nomatch h), fun _ h => (nomatch h)⟩
  ⟨h0, c2_rounding_invariant.2 (some [])
    { master_status := some (.dict [("volume", .float (mkRat (-203) 10))]) } h0⟩

/-- C5, counterexample: the float `7.5` enters the stored state through
`mergePartial`'s outputs rule without being rounded and without becoming
an integer — the claim's universal rounding statement fails on the
outputs path. -/
theorem c5_counterexample :
    callbackEffect (some []) { outputs := some [.float (mkRat 15 2)] } =
      (some [("outputs", .list [.float (mkRat 15 2)])], true) := by
  decide

/-- C5 (amended): at every site where the rounding rule is applied (all
of `_rounded_levels`' depth-one positions and the merge's level lists and
master values — but not the outputs wholesale replacement), a numeric
value is rounded to the nearest integer with ties to even (`7.5 ↦ 8`,
`7.49 ↦ 7`) and stored as an integer, and a non-numeric value passes
through unchanged. -/
theorem c5_rounding_semantics :
    (∀ q : Rat, roundVal (.float q) = .int (roundHalfEven q)) ∧
    (roundHalfEven (mkRat 15 2) = 8 ∧ roundHalfEven (mkRat 749 100) = 7) ∧
    (∀ v, isNumeric v = true → ∃ n : Int, roundVal v = .int n) ∧
    (∀ v, isNumeric v = false → roundVal v = v) ∧
    (∀ (data : Option StateDict) (vs : List JVal),
      ∃ w, pyLookup "input_levels"
          ((levels_callback data { input_levels := some vs }).1) = some w ∧
        pyEq (.list (vs.map roundVal)) w = true) := by
  refine ⟨fun q => rfl, ⟨by decide, by decide⟩, ?_, ?_, ?_⟩
  · intro v hv
    cases v <;> first
      | exact ⟨_, rfl⟩
      | simp [isNumeric] at hv
  · intro v hv
    cases v <;> first
      | rfl
      | simp [isNumeric] at hv
  · intro data vs
    rcases h1 : mergeLevelList "input_levels" (some vs) (data.getD [], false) with ⟨c1, u1⟩
    have hlc : levels_callback data { input_levels := some vs } = (c1, u1) := by
      rw [levels_callback_eq_mergeStages]
      unfold mergeStages
      rw [show ({ input_levels := some vs } : Event).input_levels = some vs from rfl, h1,
        mergeLevelList_none "output_levels" c1 u1,
        masterRule_none { input_levels := some vs } c1 u1 rfl,
        outputsRule_none { input_levels := some vs } c1 u1 rfl,
        nestedLevelsRule_none { input_levels := some vs } _ rfl]
    obtain ⟨w, hw, hpe⟩ := mergeLevelList_post "input_levels" vs (data.getD []) false
    rw [h1] at hw
    rw [hlc]
    exact ⟨w, hw, hpe⟩

/-- C5 witness: `7.5` is numeric and rounds to an integer; a string is
non-numeric and passes through. -/
theorem c5_witness :
    isNumeric (.float (mkRat 15 2)) = true ∧
    (∃ n : Int, roundVal (.float (mkRat 15 2)) = .int n) ∧
    isNumeric (.str "x") = false ∧ roundVal (.str "x") = .str "x" :=
  ⟨rfl, c5_rounding_semantics.2.2.1 _ rfl, rfl, c5_rounding_semantics.2.2.2.1 _ rfl⟩

/-- C9, counterexample: in the spec's end-to-end scenario the stream event
`{"master_status": {"mute": true}}` stores the integer `1`, not the
boolean `true` — `int(round(True))` is `1` — so the snapshot's
`master.mute` is not "the boolean true". -/
theorem c9_counterexample :
    (callbackEffect
      (some [("master", .dict [("volume", .int (-20)), ("mute", .int 0)]),
             ("input_levels", .list [.int (-10), .int (-6)])])
      { master_status := some (.dict [("mute", .bool true)]) }).1 =
      some [("master", .dict [("volume", .int (-20)), ("mute", .int 1)]),
            ("input_levels", .list [.int (-10), .int (-6)])] ∧
    (JVal.int 1 ≠ JVal.bool true) := by
  constructor <;> decide

/-- C9 (amended): the end-to-end scenario with the boolean normalized to
an integer: the full refresh yields `volume = -20`, `mute = 0` and
`input_levels = [-10, -6]`; the subsequent `{"master_status":{"mute":true}}`
stream event makes `master.mute` the integer `1` (which is Python-equal to
`True`), leaves `volume` at `-20`, and fires exactly one notification. -/
theorem c9_scenario :
    rounded_levels
      [("master", .dict [("volume", .float (mkRat (-203) 10)), ("mute", .bool false)]),
       ("input_levels", .list [.float (mkRat (-102) 10), .float (mkRat (-59) 10)])] =
      [("master", .dict [("volume", .int (-20)), ("mute", .int 0)]),
       ("input_levels", .list [.int (-10), .int (-6)])] ∧
    callbackEffect
      (some [("master", .dict [("volume", .int (-20)), ("mute", .int 0)]),
             ("input_levels", .list [.int (-10), .int (-6)])])
      { master_status := some (.dict [("mute", .bool true)]) } =
      (some [("master", .dict [("volume", .int (-20)), ("mute", .int 1)]),
             ("input_levels", .list [.int (-10), .int (-6)])], true) ∧
    pyEq (.int 1) (.bool true) = true := by
  refine ⟨by decide, by decide, by decide⟩

/-- C10 (confirmed): `isinstance` counts booleans as numbers, so both the
full-refresh normalization and the partial merge store `0`/`1` in place
of a boolean wherever the numeric check applies: top-level scalars,
sequence elements and nested-mapping values of a refresh, and
master/master_status values of a merge. -/
theorem c10_bool_normalization :
    (∀ b, isNumeric (.bool b) = true) ∧
    (∀ b, roundVal (.bool b) = .int (if b then 1 else 0)) ∧
    (∀ (d : StateDict) (k : String) (b : Bool), pyLookup k d = some (.bool b) →
      pyLookup k (rounded_levels d) = some (.int (if b then 1 else 0))) ∧
    (∀ (d : StateDict) (k : String) (xs : List JVal), pyLookup k d = some (.list xs) →
      pyLookup k (rounded_levels d) = some (.list (xs.map roundVal))) ∧
    (∀ (d : StateDict) (k : String) (es : List (String × JVal)),
      pyLookup k d = some (.dict es) →
      pyLookup k (rounded_levels d) =
        some (.dict (es.map fun kv2 => (kv2.1, roundVal kv2.2)))) ∧
    (∀ (cur : List (String × JVal)) (k : String) (b : Bool),
      mergeMasterDict cur [(k, .bool b)] =
        setKey k (.int (if b then 1 else 0)) cur) := by
  refine ⟨fun b => rfl, fun b => by cases b <;> rfl, ?_, ?_, ?_, ?_⟩
  · intro d k b h
    rw [pyLookup_rounded_levels, h]
    cases b <;> rfl
  · intro d k xs h
    rw [pyLookup_rounded_levels, h]
    rfl
  · intro d k es h
    rw [pyLookup_rounded_levels, h]
    rfl
  · intro cur k b
    cases b <;> rfl

/-- C10 witness: a concrete boolean in a refresh becomes the integer 1. -/
theorem c10_witness :
    pyLookup "mute" [("mute", .bool true)] = some (.bool true) ∧
    pyLookup "mute" (rounded_levels [("mute", .bool true)]) = some (.int 1) :=
  ⟨by decide, c10_bool_normalization.2.2.1 [("mute", .bool true)] "mute" true (by decide)⟩

theorem loopStep_done (c : Client) (h : c.taskDone = true) : loopStep c = c := by
  unfold loopStep
  simp [h]

theorem loopStep_listeners (c : Client) : (loopStep c).listeners = c.listeners := by
  unfold loopStep
  repeat' split
  all_goals rfl

theorem loopStep_stopSet (c : Client) : (loopStep c).stopSet = c.stopSet := by
  unfold loopStep
  repeat' split
  all_goals rfl

theorem loopStep_hasTask (c : Client) : (loopStep c).hasTask = c.hasTask := by
  unfold loopStep
  repeat' split
  all_goals rfl

theorem loopStep_taskDone_of_not_stop (c : Client) (hs : c.stopSet = false) :
    (loopStep c).taskDone = c.taskDone := by
  unfold loopStep
  repeat' split
  all_goals simp_all

theorem loopStep_finInv (c : Client) (h : c.phase = .fin → c.taskDone = true) :
    (loopStep c).phase = .fin → (loopStep c).taskDone = true := by
  unfold loopStep
  repeat' split
  all_goals simp_all

theorem iterate_loopStep_listeners (n : Nat) (c : Client) :
    (loopStep^[n] c).listeners = c.listeners := by
  induction n generalizing c with
  | zero => rfl
  | succ n ih => rw [Function.iterate_succ_apply, ih, loopStep_listeners]

theorem iterate_loopStep_stopSet (n : Nat) (c : Client) :
    (loopStep^[n] c).stopSet = c.stopSet := by
  induction n generalizing c with
  | zero => rfl
  | succ n ih => rw [Function.iterate_succ_apply, ih, loopStep_stopSet]

theorem iterate_loopStep_hasTask (n : Nat) (c : Client) :
    (loopStep^[n] c).hasTask = c.hasTask := by
  induction n generalizing c with
  | zero => rfl
  | succ n ih => rw [Function.iterate_succ_apply, ih, loopStep_hasTask]

theorem iterate_loopStep_taskDone_of_not_stop (n : Nat) (c : Client)
    (hs : c.stopSet = false) :
    (loopStep^[n] c).taskDone = c.taskDone := by
  induction n generalizing c with
  | zero => rfl
  | succ n ih =>
    rw [Function.iterate_succ_apply, ih _ (by rw [loopStep_stopSet]; exact hs),
      loopStep_taskDone_of_not_stop c hs]

theorem iterate_loopStep_finInv (n : Nat) (c : Client)
    (h : c.phase = .fin → c.taskDone = true) :
    (loopStep^[n] c).phase = .fin → (loopStep^[n] c).taskDone = true := by
  induction n generalizing c with
  | zero => exact h
  | succ n ih =>
    rw [Function.iterate_succ_apply]
    exact ih _ (loopStep_finInv c h)

theorem subscribeOp_listeners (cb : Nat) (c : Client) :
    (subscribeOp cb c).listeners = c.listeners ++ [cb] := by
  by_cases h : c.hasTask = true <;> simp [subscribeOp, h]

theorem subscribeOp_stopSet (cb : Nat) (c : Client) :
    (subscribeOp cb c).stopSet = c.stopSet := by
  by_cases h : c.hasTask = true <;> simp [subscribeOp, h]

theorem subscribeOp_hasTask_true (cb : Nat) (c : Client) (h : c.hasTask = true) :
    subscribeOp cb c = { c with listeners := c.listeners ++ [cb] } := by
  simp [subscribeOp, h]

theorem subscribeOp_hasTask (cb : Nat) (c : Client) :
    (subscribeOp cb c).hasTask = true := by
  by_cases h : c.hasTask = true <;> simp [subscribeOp, h]

theorem subscribeOp_taskDone_of_not (cb : Nat) (c : Client)
    (h : c.hasTask = true → c.taskDone = false) :
    (subscribeOp cb c).taskDone = false := by
  by_cases hh : c.hasTask = true <;> simp [subscribeOp, hh, h]

theorem subscribeOp_finInv (cb : Nat) (c : Client)
    (h : c.phase = .fin → c.taskDone = true) :
    (subscribeOp cb c).phase = .fin → (subscribeOp cb c).taskDone = true := by
  by_cases hh : c.hasTask = true
  · rw [subscribeOp_hasTask_true cb c hh]
    exact h
  · simp [subscribeOp, hh]

theorem unsubscribeOp_fields (cb : Nat) (c : Client) :
    (unsubscribeOp cb c).listeners = c.listeners.erase cb ∧
    (unsubscribeOp cb c).stopSet = (c.stopSet || (c.listeners.erase cb).isEmpty) ∧
    (unsubscribeOp cb c).taskDone = c.taskDone ∧
    (unsubscribeOp cb c).hasTask = c.hasTask ∧
    (unsubscribeOp cb c).phase = c.phase := by
  exact ⟨rfl, rfl, rfl, rfl, rfl⟩

theorem recv_stop_reaches : ∀ (fs : List Nat) (c : Client), c.hasTask = true →
    c.taskDone = false → c.stopSet = true → c.phase = .recv fs →
    (loopStep^[fs.length + 2] c).taskDone = true := by
  intro fs
  induction fs with
  | nil =>
    intro c hht hd hs hph
    have s1 : loopStep c = { c with phase := .post } := by
      unfold loopStep
      simp [hht, hd, hph]
    have s2 : loopStep { c with phase := .post } =
        { c with taskDone := true, phase := .fin } := by
      unfold loopStep
      simp [hht, hd, hs]
    show (loopStep (loopStep c)).taskDone = true
    rw [s1, s2]
  | cons f fs ih =>
    intro c hht hd hs hph
    have s1 : loopStep c = { c with
        delivered := c.delivered ++ c.listeners.map (fun cb => (cb, f)),
        phase := .recv fs } := by
      unfold loopStep
      simp [hht, hd, hph]
    have hlen : (f :: fs).length + 2 = (fs.length + 2) + 1 := by
      rw [List.length_cons]
    rw [hlen, Function.iterate_succ_apply, s1]
    exact ih _ (by simpa using hht) (by simpa using hd) (by simpa using hs) rfl

theorem loop_stops (c : Client) (hht : c.hasTask = true) (hs : c.stopSet = true)
    (hfin : c.phase = .fin → c.taskDone = true) :
    (loopStep^[stopFuel c] c).taskDone = true := by
  by_cases hd : c.taskDone = true
  · rw [Function.iterate_fixed (loopStep_done c hd)]
    exact hd
  · rw [Bool.not_eq_true] at hd
    cases hph : c.phase with
    | check =>
      have hf : stopFuel c = 1 := by simp [stopFuel, hph]
      rw [hf]
      show (loopStep c).taskDone = true
      unfold loopStep
      simp [hht, hd, hph, hs]
    | recv fs =>
      have hf : stopFuel c = fs.length + 2 := by simp [stopFuel, hph]
      rw [hf]
      exact recv_stop_reaches fs c hht hd hs hph
    | post =>
      have hf : stopFuel c = 1 := by simp [stopFuel, hph]
      rw [hf]
      show (loopStep c).taskDone = true
      unfold loopStep
      simp [hht, hd, hph, hs]
    | sleeping =>
      have hf : stopFuel c = 2 := by simp [stopFuel, hph]
      rw [hf]
      have s1 : loopStep c = { c with
          sleeps := c.sleeps ++ [c.backoff],
          backoff := min (c.backoff * 2) 60,
          phase := .check } := by
        unfold loopStep
        simp [hht, hd, hph]
      show (loopStep (loopStep c)).taskDone = true
      rw [s1]
      unfold loopStep
      simp [hht, hd, hs]
    | fin => exact absurd (hfin hph) (by simp [hd])

theorem recv_drain : ∀ (fs : List Nat) (c : Client), c.hasTask = true →
    c.taskDone = false → c.phase = .recv fs →
    ∃ d, loopStep^[fs.length] c = { c with phase := .recv [], delivered := d } := by
  intro fs
  induction fs with
  | nil =>
    intro c hht hd hph
    refine ⟨c.delivered, ?_⟩
    show c = _
    rw [← hph]
  | cons f fs ih =>
    intro c hht hd hph
    have s1 : loopStep c = { c with
        delivered := c.delivered ++ c.listeners.map (fun cb => (cb, f)),
        phase := .recv fs } := by
      unfold loopStep
      simp [hht, hd, hph]
    rw [List.length_cons, Function.iterate_succ_apply, s1]
    obtain ⟨d, hdr⟩ := ih { c with
        delivered := c.delivered ++ c.listeners.map (fun cb => (cb, f)),
        phase := .recv fs } (by simpa using hht) (by simpa using hd) rfl
    exact ⟨d, by rw [hdr]⟩

theorem min_pow_double (k : Nat) : min (min (2 ^ k) 60 * 2) 60 = min (2 ^ (k + 1)) 60 := by
  rcases le_total (2 ^ k) 60 with h | h
  · rw [min_eq_left h, pow_succ]
  · have h2 : (60 : Nat) ≤ 2 ^ (k + 1) := by
      calc (60 : Nat) ≤ 2 ^ k := h
      _ ≤ 2 ^ (k + 1) := Nat.pow_le_pow_right (by norm_num) (Nat.le_succ k)
    rw [min_eq_right h, min_eq_right h2]
    decide

theorem sleeps_allFail : ∀ (n k : Nat) (c : Client), c.hasTask = true →
    c.taskDone = false → c.stopSet = false → c.phase = .check →
    c.schedule = [] → c.backoff = min (2 ^ k) 60 →
    loopStep^[3 * n] c = { c with
      sleeps := c.sleeps ++ (List.range n).map (fun i => min (2 ^ (k + i)) 60),
      backoff := min (2 ^ (k + n)) 60 } := by
  intro n
  induction n with
  | zero =>
    intro k c hht hd hs hph hsch hb
    show c = _
    simp only [List.range_zero, List.map_nil, List.append_nil, Nat.add_zero, ← hb]
  | succ n ih =>
    intro k c hht hd hs hph hsch hb
    have s1 : loopStep c = { c with phase := .post } := by
      unfold loopStep
      simp [hht, hd, hs, hph, hsch]
    have s2 : loopStep { c with phase := .post } = { c with phase := .sleeping } := by
      unfold loopStep
      simp [hht, hd, hs]
    have s3 : loopStep { c with phase := .sleeping } = { c with
        sleeps := c.sleeps ++ [c.backoff],
        backoff := min (c.backoff * 2) 60,
        phase := .check } := by
      unfold loopStep
      simp [hht, hd]
    have hsplit : 3 * (n + 1) = 3 * n + 3 := by ring
    rw [hsplit, Function.iterate_add_apply]
    have h3 : loopStep^[3] c = { c with
        sleeps := c.sleeps ++ [c.backoff],
        backoff := min (c.backoff * 2) 60,
        phase := .check } := by
      show loopStep (loopStep (loopStep c)) = _
      rw [s1, s2, s3]
    rw [h3]
    have hb2 : min (c.backoff * 2) 60 = min (2 ^ (k + 1)) 60 := by
      rw [hb, min_pow_double]
    rw [ih (k + 1) { c with
        sleeps := c.sleeps ++ [c.backoff],
        backoff := min (c.backoff * 2) 60,
        phase := .check } hht hd hs rfl hsch hb2]
    dsimp only
    have hlist : (c.sleeps ++ [c.backoff]) ++
        (List.range n).map (fun i => min (2 ^ (k + 1 + i)) 60) =
        c.sleeps ++ (List.range (n + 1)).map (fun i => min (2 ^ (k + i)) 60) := by
      rw [List.range_succ_eq_map, List.map_cons, List.map_map, List.append_assoc,
        List.singleton_append]
      simp only [Nat.add_zero]
      rw [← hb]
      congr 2
      apply List.map_congr_left
      intro i _
      simp only [Function.comp]
      have hik : k + 1 + i = k + (i + 1) := by omega
      rw [hik]
    rw [hlist, show k + 1 + n = k + (n + 1) from by omega, hph]

/-- C4, counterexample: after one failed connection attempt the loop
sleeps 1 time unit before attempt 2, not `min(2^1, 60) = 2` as claimed —
the sleep happens before the doubling, so N failures produce a wait of
`min(2^(N-1), 60)`. -/
theorem c4_counterexample :
    (loopStep^[3 * 1] (subscribeOp 0 (initClient []))).sleeps = [1] ∧
    (1 : Nat) ≠ min (2 ^ 1) 60 := by
  constructor <;> decide

/-- C4 (amended): with every attempt failing, the wait before attempt
`N+1` (the last of the first `N` recorded sleeps) is `min(2^(N-1), 60)`,
starting from 1; and after a successful connect the prior backoff is
discarded — the sleep that follows the connection's end is 1 time unit
again. -/
theorem c4_backoff_growth :
    (∀ N : Nat, 1 ≤ N →
      ((loopStep^[3 * N] (subscribeOp 0 (initClient []))).sleeps).getLast? =
        some (min (2 ^ (N - 1)) 60)) ∧
    (∀ (c : Client) (fs : List Nat) (rest : List Outcome),
      c.hasTask = true → c.taskDone = false → c.stopSet = false →
      c.phase = .check → c.schedule = .conn fs :: rest →
      (loopStep^[fs.length + 4] c).sleeps = c.sleeps ++ [1]) := by
  constructor
  · intro N hN
    obtain ⟨M, rfl⟩ : ∃ M, N = M + 1 := ⟨N - 1, by omega⟩
    rw [sleeps_allFail (M + 1) 0 (subscribeOp 0 (initClient []))
      (by decide) (by decide) (by decide) (by decide) (by decide) (by decide)]
    dsimp only
    have hsl : (subscribeOp 0 (initClient [])).sleeps = [] := by decide
    rw [hsl, List.nil_append, List.range_succ, List.map_append, List.map_cons,
      List.map_nil, List.getLast?_concat]
    simp only [Nat.zero_add, Nat.add_sub_cancel]
  · intro c fs rest hht hd hs hph hsch
    have s1 : loopStep c = { c with
        schedule := rest,
        backoff := 1,
        phase := .recv fs } := by
      unfold loopStep
      simp [hht, hd, hs, hph, hsch]
    obtain ⟨d, hdr⟩ := recv_drain fs { c with
        schedule := rest,
        backoff := 1,
        phase := .recv fs } hht hd rfl
    have harr : fs.length + 4 = 3 + (fs.length + 1) := by omega
    rw [harr, Function.iterate_add_apply,
      Function.iterate_succ_apply loopStep fs.length c, s1, hdr]
    dsimp only
    have t1 : loopStep { c with
        backoff := 1,
        phase := Phase.recv [],
        schedule := rest,
        delivered := d } = { c with
        backoff := 1,
        phase := Phase.post,
        schedule := rest,
        delivered := d } := by
      unfold loopStep
      simp [hht, hd]
    have t2 : loopStep { c with
        backoff := 1,
        phase := Phase.post,
        schedule := rest,
        delivered := d } = { c with
        backoff := 1,
        phase := Phase.sleeping,
        schedule := rest,
        delivered := d } := by
      unfold loopStep
      simp [hht, hd, hs]
    have t3 : loopStep { c with
        backoff := 1,
        phase := Phase.sleeping,
        schedule := rest,
        delivered := d } = { c with
        backoff := min (1 * 2) 60,
        phase := Phase.check,
        schedule := rest,
        sleeps := c.sleeps ++ [1],
        delivered := d } := by
      unfold loopStep
      simp [hht, hd]
    have t123 : loopStep^[3] { c with
        backoff := 1,
        phase := Phase.recv [],
        schedule := rest,
        delivered := d } = { c with
        backoff := min (1 * 2) 60,
        phase := Phase.check,
        schedule := rest,
        sleeps := c.sleeps ++ [1],
        delivered := d } := by
      show loopStep (loopStep (loopStep _)) = _
      rw [t1, t2, t3]
    rw [t123]

/-- C4 witness: three consecutive failures sleep 1, 2, 4; a successful
connect that delivers two frames and then drops is followed by a sleep of
1 even when the backoff had grown to 32. -/
theorem c4_witness :
    (1 ≤ 3 ∧
      ((loopStep^[3 * 3] (subscribeOp 0 (initClient []))).sleeps).getLast? =
        some (min (2 ^ 2) 60)) ∧
    ((loopStep^[[5, 6].length + 4]
      { listeners := [0], hasTask := true, taskDone := false, stopSet := false,
        backoff := 32, phase := .check, schedule := [.conn [5, 6]],
        sleeps := [], delivered := [] }).sleeps = [] ++ [1]) :=
  ⟨⟨by omega, c4_backoff_growth.1 3 (by omega)⟩,
    c4_backoff_growth.2 _ [5, 6] [] rfl rfl rfl rfl rfl⟩

/-- C7 (confirmed): `_dispatch_event` invokes every listener of the
snapshot, in registration order, with the dispatched event; the
per-listener `try/except` swallows a raising listener, so the dispatch
returns normally (never propagates) no matter which listeners raise —
neither the remaining listeners of the dispatch, nor any later dispatch,
nor the receive loop that awaits it are affected. -/
theorem c7_listener_isolation (ls : List Listener) (ev : Nat) :
    dispatch_event ls ev = .ok (ls.map Listener.id) := by
  induction ls with
  | nil => rfl
  | cons l rest ih =>
    have ht : tryExceptLog (runListener l ev) = .ok () := by
      unfold runListener tryExceptLog
      split <;> rfl
    unfold dispatch_event
    rw [ht, ih]
    rfl

/-- C3 is refuted by the code: after the last unsubscribe and disconnect,
re-subscribing does not start a fresh loop.  `_ws_task` still holds the
completed task (so no new task is created) and `_stop_event` is still
set; the resulting client is a fixpoint of the loop semantics — it never
connects again and the new subscriber never receives an event, although
the device's schedule has connections and frames to offer. -/
theorem c3_no_fresh_loop_after_stop :
    deadClient.hasTask = true ∧ deadClient.taskDone = true ∧
    deadClient.stopSet = true ∧ deadClient.listeners = [1] ∧
    deadClient.delivered = [] ∧ deadClient.schedule = [.conn [5], .conn [7]] ∧
    ∀ n, loopStep^[n] deadClient = deadClient := by
  refine ⟨by decide, by decide, by decide, by decide, by decide, by decide, ?_⟩
  intro n
  exact Function.iterate_fixed (loopStep_done deadClient (by decide)) n

theorem twoSubs_props (a b : Nat) (sched : List Outcome) (n1 n2 : Nat) :
    (twoSubs a b sched n1 n2).listeners = [a, b] ∧
    (twoSubs a b sched n1 n2).stopSet = false ∧
    (twoSubs a b sched n1 n2).hasTask = true ∧
    (twoSubs a b sched n1 n2).taskDone = false ∧
    ((twoSubs a b sched n1 n2).phase = Phase.fin →
      (twoSubs a b sched n1 n2).taskDone = true) := by
  have h0l : (subscribeOp a (initClient sched)).listeners = [a] := by
    rw [subscribeOp_listeners]
    rfl
  have h0s : (subscribeOp a (initClient sched)).stopSet = false := by
    rw [subscribeOp_stopSet]
    rfl
  have h0t : (subscribeOp a (initClient sched)).hasTask = true :=
    subscribeOp_hasTask a _
  have h0d : (subscribeOp a (initClient sched)).taskDone = false :=
    subscribeOp_taskDone_of_not a _ (fun hh => nomatch hh)
  have h0f := subscribeOp_finInv a (initClient sched) (fun hp => nomatch hp)
  have h1l : (loopStep^[n1] (subscribeOp a (initClient sched))).listeners = [a] := by
    rw [iterate_loopStep_listeners, h0l]
  have h1s : (loopStep^[n1] (subscribeOp a (initClient sched))).stopSet = false := by
    rw [iterate_loopStep_stopSet, h0s]
  have h1t : (loopStep^[n1] (subscribeOp a (initClient sched))).hasTask = true := by
    rw [iterate_loopStep_hasTask, h0t]
  have h1d : (loopStep^[n1] (subscribeOp a (initClient sched))).taskDone = false := by
    rw [iterate_loopStep_taskDone_of_not_stop n1 _ h0s, h0d]
  have h1f := iterate_loopStep_finInv n1 _ h0f
  have h2l : (subscribeOp b (loopStep^[n1] (subscribeOp a
      (initClient sched)))).listeners = [a, b] := by
    rw [subscribeOp_listeners, h1l]
    rfl
  have h2s : (subscribeOp b (loopStep^[n1] (subscribeOp a
      (initClient sched)))).stopSet = false := by
    rw [subscribeOp_stopSet, h1s]
  have h2t : (subscribeOp b (loopStep^[n1] (subscribeOp a
      (initClient sched)))).hasTask = true := subscribeOp_hasTask b _
  have h2d : (subscribeOp b (loopStep^[n1] (subscribeOp a
      (initClient sched)))).taskDone = false :=
    subscribeOp_taskDone_of_not b _ (fun _ => h1d)
  have h2f := subscribeOp_finInv b _ h1f
  refine ⟨?_, ?_, ?_, ?_, ?_⟩
  · rw [twoSubs, iterate_loopStep_listeners, h2l]
  · rw [twoSubs, iterate_loopStep_stopSet, h2s]
  · rw [twoSubs, iterate_loopStep_hasTask, h2t]
  · rw [twoSubs, iterate_loopStep_taskDone_of_not_stop n2 _ h2s, h2d]
  · exact iterate_loopStep_finInv n2 _ h2f

/-- C8 (confirmed): subscriptions are reference-counted.  After two
subscribes, one unsubscribe leaves the stop event unset and the task
alive; removing the second (last) subscriber sets the stop event and the
loop completes within its current attempt or sleep (`stopFuel` steps);
and `async_disconnect` returns only once the task has completed, after
which the loop is a fixpoint — no dispatch can occur after disconnect
returns. -/
theorem c8_refcounted_teardown :
    (∀ (a b : Nat) (sched : List Outcome) (n1 n2 : Nat),
      (oneUnsub a b sched n1 n2).stopSet = false ∧
      (oneUnsub a b sched n1 n2).taskDone = false ∧
      (oneUnsub a b sched n1 n2).hasTask = true) ∧
    (∀ (a b : Nat) (sched : List Outcome) (n1 n2 n3 : Nat),
      (twoUnsubs a b sched n1 n2 n3).stopSet = true ∧
      (loopStep^[stopFuel (twoUnsubs a b sched n1 n2 n3)]
        (twoUnsubs a b sched n1 n2 n3)).taskDone = true) ∧
    (∀ c : Client, c.hasTask = true → (c.phase = Phase.fin → c.taskDone = true) →
      (async_disconnect c).taskDone = true ∧
      ∀ n, loopStep^[n] (async_disconnect c) = async_disconnect c) := by
  refine ⟨?_, ?_, ?_⟩
  · intro a b sched n1 n2
    obtain ⟨hl, hs, hht, hd, _⟩ := twoSubs_props a b sched n1 n2
    refine ⟨?_, hd, hht⟩
    show ((twoSubs a b sched n1 n2).stopSet ||
      ((twoSubs a b sched n1 n2).listeners.erase a).isEmpty) = false
    rw [hl, hs, List.erase_cons_head]
    rfl
  · intro a b sched n1 n2 n3
    obtain ⟨hl, hs, hht, hd, hf⟩ := twoSubs_props a b sched n1 n2
    have hul : (oneUnsub a b sched n1 n2).listeners = [b] := by
      show (twoSubs a b sched n1 n2).listeners.erase a = [b]
      rw [hl, List.erase_cons_head]
    have hus : (oneUnsub a b sched n1 n2).stopSet = false := by
      show ((twoSubs a b sched n1 n2).stopSet ||
        ((twoSubs a b sched n1 n2).listeners.erase a).isEmpty) = false
      rw [hl, hs, List.erase_cons_head]
      rfl
    have hut : (oneUnsub a b sched n1 n2).hasTask = true := hht
    have hud : (oneUnsub a b sched n1 n2).taskDone = false := hd
    have huf : (oneUnsub a b sched n1 n2).phase = Phase.fin →
        (oneUnsub a b sched n1 n2).taskDone = true := hf
    have h3l : (loopStep^[n3] (oneUnsub a b sched n1 n2)).listeners = [b] := by
      rw [iterate_loopStep_listeners, hul]
    have h3s : (loopStep^[n3] (oneUnsub a b sched n1 n2)).stopSet = false := by
      rw [iterate_loopStep_stopSet, hus]
    have h3t : (loopStep^[n3] (oneUnsub a b sched n1 n2)).hasTask = true := by
      rw [iterate_loopStep_hasTask, hut]
    have h3f := iterate_loopStep_finInv n3 _ huf
    have hu2s : (twoUnsubs a b sched n1 n2 n3).stopSet = true := by
      show ((loopStep^[n3] (oneUnsub a b sched n1 n2)).stopSet ||
        ((loopStep^[n3] (oneUnsub a b sched n1 n2)).listeners.erase b).isEmpty) = true
      rw [h3l, List.erase_cons_head]
      simp
    refine ⟨hu2s, ?_⟩
    exact loop_stops _ h3t hu2s h3f
  · intro c hht hwf
    unfold async_disconnect
    by_cases hd : c.taskDone = true
    · rw [if_neg (by simp [hht, hd])]
      exact ⟨hd, fun n => Function.iterate_fixed (loopStep_done c hd) n⟩
    · rw [Bool.not_eq_true] at hd
      rw [if_pos (by simp [hht, hd])]
      have hdone := loop_stops { c with stopSet := true } hht rfl hwf
      refine ⟨hdone, ?_⟩
      intro n
      exact Function.iterate_fixed (loopStep_done _ hdone) n

/-- C8 witness: the third part applied to a concrete running client. -/
theorem c8_witness :
    (subscribeOp 0 (initClient [])).hasTask = true ∧
    (async_disconnect (subscribeOp 0 (initClient []))).taskDone = true :=
  ⟨by decide, (c8_refcounted_teardown.2.2 (subscribeOp 0 (initClient []))
    (by decide) (fun hp => nomatch hp)).1⟩
